import Mathlib

/-!
Shallow embedding of the precipitation overlay server's conversion cache and
pipeline orchestrator (`server.js`).  JS numbers that hold timestamps, sizes and
pixel bytes are modelled as `Nat`/`Int`; geographic coordinates are modelled as
real numbers.  Each definition mirrors the source function whose name it keeps.
-/

namespace Precip

/-! ### String helpers (JS primitives used by the request normalizers) -/

/-- ASCII whitespace recognized by `String.prototype.trim` (the inputs of
interest are query strings, modelled over ASCII). -/
def jsIsSpace (c : Char) : Bool :=
  c == ' ' || c == '\t' || c == '\n' || c == '\r' || c == Char.ofNat 11 || c == Char.ofNat 12

/-- `String.prototype.trim`. -/
def jsTrim (s : String) : String :=
  String.mk (((s.toList.dropWhile fun c => jsIsSpace c).reverse.dropWhile fun c => jsIsSpace c).reverse)

/-- `String.prototype.toUpperCase` (ASCII model). -/
def jsToUpper (s : String) : String :=
  String.mk (s.toList.map Char.toUpper)

/-- `.replace(/H$/, '')`: drop a single trailing `'H'` if present. -/
def stripTrailingH (s : String) : String :=
  if s.toList.getLast? = some 'H' then String.mk s.toList.dropLast else s

/-- `/^\d{1,2}$/` body test: all characters are ASCII digits. -/
def isDigits (l : List Char) : Bool :=
  l.all fun c => c.isDigit

/-- `Number(s)` for an ASCII digit string. -/
def natOfDigits (l : List Char) : ℕ :=
  l.foldl (fun a c => 10 * a + (c.toNat - 48)) 0

/-- `String(n).padStart(2, '0')` for the hour range this server accepts. -/
def pad2 (n : ℕ) : String :=
  if n < 10 then "0" ++ toString n else toString n

/-! ### Request normalization (`normalizeHourParam`, `normalizeVarParam`) -/

/-- The hour token after the preprocessing in `normalizeHourParam`:
`String(hour).trim().toUpperCase().replace(/H$/, '')`. -/
def hourToken (s : String) : List Char :=
  (stripTrailingH (jsToUpper (jsTrim s))).toList

/-- `normalizeHourParam` from the source: `undefined`/`null`/`''` map to `null`;
otherwise trim, uppercase, strip one trailing `H`, require one or two digits and
a value in `8..15`, and return it zero-padded. -/
def normalizeHourParam : Option String → Option String
  | none => none
  | some s =>
    if s = "" then none
    else
      let l := hourToken s
      if (l.length = 1 ∨ l.length = 2) ∧ isDigits l then
        let n := natOfDigits l
        if 8 ≤ n ∧ n ≤ 15 then some (pad2 n) else none
      else none

/-- The fixed enumerated variable set of `normalizeVarParam`. -/
def allowedVars : List String :=
  ["CAPE", "RPRATE", "SPRATE", "GPRATE", "LCDC", "PRES"]

/-- `normalizeVarParam` from the source: trim, uppercase, membership test. -/
def normalizeVarParam : Option String → Option String
  | none => none
  | some s =>
    if s = "" then none
    else
      let u := jsToUpper (jsTrim s)
      if u ∈ allowedVars then some u else none

/-- `DEFAULT_VAR` under the default configuration
(`process.env.DEFAULT_VAR || 'RPRATE'`). -/
def DEFAULT_VAR : String := "RPRATE"

/-- The variable the route handlers resolve:
`normalizeVarParam(req.query.var) || DEFAULT_VAR`. -/
def resolvedVar (v : Option String) : String :=
  (normalizeVarParam v).getD DEFAULT_VAR

/-- Modelled from the claim's words (C9): the variable parameter "is uppercased
and accepted only if it belongs to the fixed enumerated set" — no trimming. -/
def specNormalizeVarParam : Option String → Option String
  | none => none
  | some s =>
    if s = "" then none
    else
      let u := jsToUpper s
      if u ∈ allowedVars then some u else none

/-- Modelled from the claim's words (C9): variable resolution with the
uppercase-only acceptance test. -/
def specResolvedVar (v : Option String) : String :=
  (specNormalizeVarParam v).getD DEFAULT_VAR

/-- Modelled from the claim's words (C9): the hour parameter "after trimming
and stripping an optional trailing 'H'" — no uppercasing, so a lowercase
trailing `h` is not stripped. -/
def specNormalizeHourParam : Option String → Option String
  | none => none
  | some s =>
    if s = "" then none
    else
      let l := (stripTrailingH (jsTrim s)).toList
      if (l.length = 1 ∨ l.length = 2) ∧ isDigits l then
        let n := natOfDigits l
        if 8 ≤ n ∧ n ≤ 15 then some (pad2 n) else none
      else none

/-! ### RGBA raster model

A rendered raster is a flat byte buffer indexed exactly as in the source:
pixel `(x, y)` of a raster of width `w` starts at `(w * y + x) << 2`, with
channels `R,G,B,A` at offsets `0..3`.  `data` models the buffer as a total
function on indices; indices outside the buffer are irrelevant to every
operation below. -/

structure Raster where
  width : ℕ
  height : ℕ
  data : ℕ → ℕ

/-- Buffer offset of pixel `(x, y)`: `(width * y + x) << 2` in the source. -/
def pixIdx (w x y : ℕ) : ℕ :=
  (w * y + x) * 4

/-- Alpha byte of pixel `(x, y)`. -/
def alphaAt (img : Raster) (x y : ℕ) : ℕ :=
  img.data (pixIdx img.width x y + 3)

/-! ### Border transparency (`makeDominantBorderColorTransparent`)

The source samples the four edges in this order: for each
`x ∈ [0, width)` the pixels `(x, 0)` and `(x, height-1)`, then for each
`y ∈ [0, height)` the pixels `(0, y)` and `(width-1, y)`.  Counts live in a JS
`Map`, whose iteration order is insertion order; we model it as an association
list updated in place. -/

/-- The edge pixels, in the exact sampling order of the source's two loops. -/
def borderSamples (w h : ℕ) : List (ℕ × ℕ) :=
  ((List.range w).flatMap fun x => [(x, 0), (x, h - 1)]) ++
    ((List.range h).flatMap fun y => [(0, y), (w - 1, y)])

/-- `(r << 16) | (g << 8) | b` for byte channels. -/
def encodeKey (r g b : ℕ) : ℕ :=
  r * 65536 + g * 256 + b

/-- `(bgKey >> 16) & 255`. -/
def decodeR (k : ℕ) : ℕ := k / 65536 % 256

/-- `(bgKey >> 8) & 255`. -/
def decodeG (k : ℕ) : ℕ := k / 256 % 256

/-- `bgKey & 255`. -/
def decodeB (k : ℕ) : ℕ := k % 256

/-- `counts.set(key, (counts.get(key) || 0) + 1)`: increment in place (the `Map`
keeps the key's original insertion position) or append a fresh key. -/
def bumpCount (k : ℕ) : List (ℕ × ℕ) → List (ℕ × ℕ)
  | [] => [(k, 1)]
  | (k', c) :: rest => if k' = k then (k, c + 1) :: rest else (k', c) :: bumpCount k rest

/-- `samplePixel` folded over the border: edge pixels with zero alpha are
skipped, the rest contribute their packed RGB key. -/
def sampleCounts (img : Raster) : List (ℕ × ℕ) :=
  (borderSamples img.width img.height).foldl
    (fun counts xy =>
      let i := pixIdx img.width xy.1 xy.2
      if img.data (i + 3) = 0 then counts
      else bumpCount (encodeKey (img.data i) (img.data (i + 1)) (img.data (i + 2))) counts)
    []

/-- The arg-max scan over `counts.entries()`: strict `>` against a running best
initialized to `(null, -1)`, so ties keep the first-seen key. -/
def dominantKey (img : Raster) : Option ℕ :=
  ((sampleCounts img).foldl
    (fun best kc => if (kc.2 : ℤ) > best.2 then (some kc.1, (kc.2 : ℤ)) else best)
    ((none : Option ℕ), (-1 : ℤ))).1

/-- The per-channel tolerance test `|dr| <= tol && |dg| <= tol && |db| <= tol`
against the decoded background color. -/
def withinTol (tol k r g b : ℕ) : Bool :=
  ((r : ℤ) - decodeR k).natAbs ≤ tol && ((g : ℤ) - decodeG k).natAbs ≤ tol &&
    ((b : ℤ) - decodeB k).natAbs ≤ tol

/-- The masking loop's per-index effect: index `i` is set to `0` exactly when it
is the alpha byte of an in-range pixel whose alpha is non-zero and whose RGB is
within tolerance of the background color.  (`i / 4` is the linear pixel number
`width * y + x`; the loop visits exactly the pixels with `i / 4 < width * height`.) -/
def zeroCond (img : Raster) (tol k i : ℕ) : Bool :=
  i % 4 = 3 && i / 4 < img.width * img.height && img.data i ≠ 0 &&
    withinTol tol k (img.data (4 * (i / 4))) (img.data (4 * (i / 4) + 1))
      (img.data (4 * (i / 4) + 2))

/-- The double loop that zeroes the alpha of every in-tolerance pixel. -/
def maskBackground (img : Raster) (tol k : ℕ) : Raster :=
  { img with data := fun i => if zeroCond img tol k i then 0 else img.data i }

/-- `makeDominantBorderColorTransparent` (the default tolerance is
`BORDER_COLOR_TOLERANCE || 10`; `tol` is that configured value): early return on
an empty raster or when every border pixel is transparent, otherwise zero the
alpha of every pixel within tolerance of the dominant border color. -/
def makeDominantBorderColorTransparent (tol : ℕ) (img : Raster) : Raster :=
  if img.width = 0 ∨ img.height = 0 then img
  else
    match dominantKey img with
    | none => img
    | some k => maskBackground img tol k

/-! ### Content crop (`cropPngToNonTransparent`) -/

/-- The scan accumulator `(minX, minY, maxX, maxY)`, initialized to
`(width, height, -1, -1)`.  JS numbers here are modelled as `Int` so the `-1`
sentinels are exact. -/
structure Scan4 where
  minX : ℤ
  minY : ℤ
  maxX : ℤ
  maxY : ℤ
deriving DecidableEq

/-- The crop record returned by `cropPngToNonTransparent`: the rectangle's
pixel-space min/max plus the original full dimensions. -/
structure CropInfo where
  minX : ℤ
  minY : ℤ
  maxX : ℤ
  maxY : ℤ
  width : ℕ
  height : ℕ
deriving DecidableEq

/-- Row-major pixel coordinates `(x, y)` of the scanning double loop. -/
def coords (w h : ℕ) : List (ℕ × ℕ) :=
  (List.range h).flatMap fun y => (List.range w).map fun x => (x, y)

/-- One iteration of the bounding-box scan: a pixel with `a >= alphaThreshold`
tightens all four accumulators. -/
def scanStep (img : Raster) (thr : ℕ) (s : Scan4) (xy : ℕ × ℕ) : Scan4 :=
  if thr ≤ img.data (pixIdx img.width xy.1 xy.2 + 3) then
    ⟨min s.minX xy.1, min s.minY xy.2, max s.maxX xy.1, max s.maxY xy.2⟩
  else s

/-- The full scan of `cropPngToNonTransparent`. -/
def cropScan (img : Raster) (thr : ℕ) : Scan4 :=
  (coords img.width img.height).foldl (scanStep img thr)
    ⟨(img.width : ℤ), (img.height : ℤ), -1, -1⟩

/-- `cropPngToNonTransparent` (the default threshold is
`CROP_ALPHA_THRESHOLD || 1`; `thr` is that configured value).  Returns the crop
record (or `none` when no pixel qualifies) together with the raster as left on
disk: unchanged when empty or when the rectangle is the full raster, otherwise
the freshly written cropped raster.  A fresh PNG buffer is zero-filled, so
out-of-range indices of the new raster read `0`. -/
def cropPngToNonTransparent (thr : ℕ) (img : Raster) : Option CropInfo × Raster :=
  let s := cropScan img thr
  if s.maxX < s.minX ∨ s.maxY < s.minY then (none, img)
  else
    let cropW := s.maxX - s.minX + 1
    let cropH := s.maxY - s.minY + 1
    let info : CropInfo := ⟨s.minX, s.minY, s.maxX, s.maxY, img.width, img.height⟩
    if cropW = (img.width : ℤ) ∧ cropH = (img.height : ℤ) then (some info, img)
    else
      (some info,
        { width := cropW.toNat, height := cropH.toNat,
          data := fun i =>
            if i < 4 * (cropW.toNat * cropH.toNat) then
              img.data
                ((img.width * (s.minY.toNat + i / 4 / cropW.toNat) +
                    (s.minX.toNat + i / 4 % cropW.toNat)) * 4 + i % 4)
            else 0 })

/-! ### Geo-bounds resolver

Coordinates are modelled as real numbers.  A bounding box is
`[[southLat, westLon], [northLat, eastLon]]`. -/

/-- A geographic bounding box `((southLat, westLon), (northLat, eastLon))`. -/
abbrev Bounds := (ℝ × ℝ) × (ℝ × ℝ)

/-- `FRANCE_BOUNDS`, the whole-region default box `[[41.0, -5.5], [51.5, 9.8]]`. -/
noncomputable def FRANCE_BOUNDS : Bounds :=
  ((41, -5.5), (51.5, 9.8))

/-- The six-parameter affine geotransform reported by `gdalinfo`:
`(x0, pxW, rot1, y0, rot2, pxH)`; the source reads entries 0, 1, 3 and 5. -/
structure Geotransform where
  x0 : ℝ
  pxW : ℝ
  rot1 : ℝ
  y0 : ℝ
  rot2 : ℝ
  pxH : ℝ

/-- `mercatorToLonLat`: inverse spherical Mercator with `R = 6378137`,
`lon = (x / R) * (180 / π)`, `lat = (2 * atan(exp(y / R)) - π/2) * (180 / π)`;
returned as `(lon, lat)`. -/
noncomputable def mercatorToLonLat (x y : ℝ) : ℝ × ℝ :=
  ((x / 6378137) * (180 / Real.pi),
    (2 * Real.arctan (Real.exp (y / 6378137)) - Real.pi / 2) * (180 / Real.pi))

/-- `geotransformLooksGeographic`: `|x0| <= 360 && |y0| <= 180` and both pixel
sizes have absolute value in `(0, 5]`. -/
def geotransformLooksGeographic (gt : Geotransform) : Prop :=
  |gt.x0| ≤ 360 ∧ |gt.y0| ≤ 180 ∧ 0 < |gt.pxW| ∧ |gt.pxW| ≤ 5 ∧ 0 < |gt.pxH| ∧ |gt.pxH| ≤ 5

/-- The inclusive pixel crop rectangle `(minCol, minRow, maxCol, maxRow)` handed
to the bounds computation. -/
structure PixRect where
  minCol : ℕ
  minRow : ℕ
  maxCol : ℕ
  maxRow : ℕ

open Classical in
/-- The bounds computation of `convertGribToPngViaPipeline` (lines after the
crop): the crop rectangle's coordinate-space extent, then either the direct
geographic box or the Mercator-inverted box. -/
noncomputable def pipelineCropBounds (gt : Geotransform) (r : PixRect) : Bounds :=
  let minX := gt.x0 + (r.minCol : ℝ) * gt.pxW
  let maxX := gt.x0 + ((r.maxCol : ℝ) + 1) * gt.pxW
  let maxY := gt.y0 + (r.minRow : ℝ) * gt.pxH
  let minY := gt.y0 + ((r.maxRow : ℝ) + 1) * gt.pxH
  if geotransformLooksGeographic gt then
    ((min minY maxY, min minX maxX), (max minY maxY, max minX maxX))
  else
    let ll := mercatorToLonLat minX minY
    let ur := mercatorToLonLat maxX maxY
    ((min ll.2 ur.2, min ll.1 ur.1), (max ll.2 ur.2, max ll.1 ur.1))

/-- Modelled from the claim's words (C5): classify as geographic iff
`|x0| ≤ 360`, `|y0| ≤ 180` and both pixel sizes lie in the interval `(0, 5]`. -/
def specLooksGeographic (gt : Geotransform) : Prop :=
  |gt.x0| ≤ 360 ∧ |gt.y0| ≤ 180 ∧ |gt.pxW| ∈ Set.Ioc (0 : ℝ) 5 ∧ |gt.pxH| ∈ Set.Ioc (0 : ℝ) 5

open Classical in
/-- Modelled from the claim's words (C5): `minX = x0 + minCol·pxW`,
`maxX = x0 + (maxCol+1)·pxW`, `maxY = y0 + minRow·pxH`, `minY = y0 + (maxRow+1)·pxH`;
geographic: `[[min(minY,maxY), min(minX,maxX)], [max(minY,maxY), max(minX,maxX)]]`;
projected: invert the two corners `(minX,minY)`, `(maxX,maxY)` through the
spherical Mercator inverse with `R = 6378137` and take per-axis min/max. -/
noncomputable def specResolveBounds (gt : Geotransform) (r : PixRect) : Bounds :=
  let minX := gt.x0 + (r.minCol : ℝ) * gt.pxW
  let maxX := gt.x0 + ((r.maxCol : ℝ) + 1) * gt.pxW
  let maxY := gt.y0 + (r.minRow : ℝ) * gt.pxH
  let minY := gt.y0 + ((r.maxRow : ℝ) + 1) * gt.pxH
  if specLooksGeographic gt then
    ((min minY maxY, min minX maxX), (max minY maxY, max minX maxX))
  else
    let c1 := mercatorToLonLat minX minY
    let c2 := mercatorToLonLat maxX maxY
    ((min c1.2 c2.2, min c1.1 c2.1), (max c1.2 c2.2, max c1.1 c2.1))

/-! ### Conversion pipeline (`convertGribToPngViaPipeline`)

The six external steps of one candidate attempt (wgrib2 extraction, the
non-empty check on the netcdf, gdalwarp, gdaldem, border transparency on the
rendered temp PNG, and the gdalinfo geotransform query) are driven by an
environment: a candidate either fails at some step, carrying the diagnostic
string the thrown error coalesces to
(`e.stderr || e.stdout || e.message || e`), or succeeds, yielding the
geotransform and the content-crop result of the rendered raster. -/

/-- Outcome of running one candidate match expression through the external
steps. -/
inductive CandOutcome where
  | ok (gt : Geotransform) (crop : Option PixRect)
  | fail (details : String)

/-- `true` on `CandOutcome.fail`. -/
def CandOutcome.isFail : CandOutcome → Bool
  | .ok _ _ => false
  | .fail _ => true

/-- The diagnostic string of a failed candidate. -/
def CandOutcome.detailsOf : CandOutcome → Option String
  | .ok _ _ => none
  | .fail d => some d

/-- Environment of one `convertGribToPngViaPipeline` call: whether the palette
file exists, and the outcome of each candidate match expression. -/
structure PipeEnv where
  paletteExists : Bool
  cand : String → CandOutcome

/-- Filesystem-visible actions of the pipeline, in order.  `attempt e` covers
the candidate's toolchain invocations (which write only intermediate files and
the temp PNG); `unlinkFinal` then `renameTmpToFinal` is `atomicReplaceFile`;
`writeFinalDirect` would be a write landing directly on the final artifact path
(the pipeline never emits it). -/
inductive PAct where
  | attempt (expr : String)
  | unlinkFinal
  | renameTmpToFinal
  | writeFinalDirect
deriving DecidableEq

/-- `GRIB_MATCHES` under the default configuration:
`':RPRATE:,:PRATE:,:APCP:'` split on commas. -/
def GRIB_MATCHES : List String := [":RPRATE:", ":PRATE:", ":APCP:"]

/-- `DATA_PALETTE` under the default configuration. -/
def DATA_PALETTE : String := "data/palette.txt"

/-- The pipeline's successful result `{bounds, matchExpr}`. -/
structure ConvResult where
  bounds : Bounds
  matchExpr : String

/-- `Array.isArray(matchExprs) && matchExprs.length ? matchExprs : GRIB_MATCHES`. -/
def effectiveMatches (exprs : List String) : List String :=
  if exprs = [] then GRIB_MATCHES else exprs

/-- The bounds a successful candidate reports: the whole-region default when the
content crop is empty, otherwise the resolver's box. -/
noncomputable def candBounds (gt : Geotransform) (crop : Option PixRect) : Bounds :=
  match crop with
  | none => FRANCE_BOUNDS
  | some r => pipelineCropBounds gt r

/-- `String(s).replace(/\s+/g, ' ')`: collapse every whitespace run to one
space.  `prevSpace` records whether the previous character was part of a run
already replaced. -/
def wsCollapseAux (prevSpace : Bool) : List Char → List Char
  | [] => []
  | c :: rest =>
    if jsIsSpace c then
      if prevSpace then wsCollapseAux true rest else ' ' :: wsCollapseAux true rest
    else c :: wsCollapseAux false rest

/-- Whitespace collapse on strings. -/
def wsCollapse (s : String) : String :=
  String.mk (wsCollapseAux false s.toList)

/-- `.slice(0, 600)`. -/
def truncate600 (s : String) : String :=
  String.mk (s.toList.take 600)

/-- The displayed form of an underlying error:
`String(details || 'Erreur inconnue').replace(/\s+/g, ' ').slice(0, 600)`. -/
def detailsString (d : Option String) : String :=
  truncate600 (wsCollapse (d.getD "Erreur inconnue"))

/-- The exhausted-candidates diagnostic of `convertGribToPngViaPipeline`. -/
def aucunMsg (ms : List String) (lastErr : Option String) : String :=
  "Aucun champ trouvé via -match. Tentés: " ++ String.intercalate ", " ms ++
    ". Dernière erreur: " ++ detailsString lastErr

/-- The candidate loop: each failing candidate replaces `lastErr` with its
diagnostic; the first succeeding candidate publishes atomically and stops. -/
noncomputable def tryCandidates (env : PipeEnv) :
    List String → Option String → Option ConvResult × Option String × List PAct
  | [], lastErr => (none, lastErr, [])
  | e :: rest, lastErr =>
    match env.cand e with
    | .ok gt crop =>
      (some ⟨candBounds gt crop, e⟩, lastErr, [.attempt e, .unlinkFinal, .renameTmpToFinal])
    | .fail d =>
      let r := tryCandidates env rest (some d)
      (r.1, r.2.1, .attempt e :: r.2.2)

/-- `convertGribToPngViaPipeline`: palette precondition first (before any
toolchain invocation), then the candidate loop, then either the successful
result or the exhausted-candidates error. -/
noncomputable def convertGribToPngViaPipeline (env : PipeEnv) (exprs : List String) :
    Except String ConvResult × List PAct :=
  if env.paletteExists = false then (.error ("Palette manquante: " ++ DATA_PALETTE), [])
  else
    let ms := effectiveMatches exprs
    match tryCandidates env ms none with
    | (some r, _, tr) => (.ok r, tr)
    | (none, lastErr, tr) => (.error (aucunMsg ms lastErr), tr)

/-- The matched expression of a pipeline result, when it succeeded. -/
def resultExpr (r : Except String ConvResult) : Option String :=
  match r with
  | .ok res => some res.matchExpr
  | .error _ => none

/-! ### Cache & refresh orchestrator (`ensureOverlayUpToDate`)

One request's pass through `ensureOverlayUpToDate`, modelled sequentially
(concurrency is treated separately below).  The environment carries what the
request observes of the outside world: `Date.now()` at entry (`now`),
`Date.now()` at the update writes (`tUpd`; the source calls `Date.now()` a few
milliseconds apart inside one update block, modelled as one instant), the stat
result of the grib file (`stat.mtimeMs` of an existing file is positive, so the
source's truthiness test on it is modelled by `Option.isSome`), the three tool
probes, whether the final artifact file exists on disk, and the result the
conversion pipeline would produce if invoked. -/

/-- The `source` field of a cache entry: `'wgrib2'` or `'synthetic'`. -/
inductive Source where
  | wgrib2
  | synthetic
deriving DecidableEq

/-- A per-key cache entry, with the exact fields of the source object. -/
structure OCache where
  updatedAt : ℕ
  bounds : Bounds
  source : Source
  message : String
  gribMtimeMs : Option ℕ
  pipelineAvailable : Option Bool
  lastErrorAt : ℕ

/-- `makeEmptyCache`. -/
noncomputable def makeEmptyCache : OCache :=
  ⟨0, FRANCE_BOUNDS, .synthetic, "synthetic", none, none, 0⟩

/-- What one request observes of the outside world. -/
structure OEnv where
  now : ℕ
  tUpd : ℕ
  gribMtimeMs : Option ℕ
  hasWgrib2 : Bool
  hasGdalwarp : Bool
  hasGdaldem : Bool
  overlayExists : Bool
  pipeResult : Except String ConvResult
  varKey : String
  gribPath : String

/-- `RETRY_INTERVAL_MS` under the default configuration. -/
def RETRY_INTERVAL_MS : ℕ := 15000

/-- `missingTools.length === 0` after the three probes. -/
def toolsAvail (e : OEnv) : Bool :=
  e.hasWgrib2 && e.hasGdalwarp && e.hasGdaldem

/-- Truthiness of the stat result (mtimes of existing files are positive). -/
def gribTruthy (e : OEnv) : Bool :=
  e.gribMtimeMs.isSome

/-- The `missingTools.join(', ')` string of the probe. -/
def missingToolsMsg (e : OEnv) : String :=
  String.intercalate ", "
    ((if e.hasWgrib2 then [] else ["wgrib2"]) ++
      (if e.hasGdalwarp then [] else ["gdalwarp"]) ++
      (if e.hasGdaldem then [] else ["gdaldem"]))

/-- `pipelineJustBecameAvailable`: available now, and the previous probe
recorded `false` (a `null` previous probe is not an edge). -/
def justBecameAvailable (c : OCache) (e : OEnv) : Bool :=
  toolsAvail e && decide (c.pipelineAvailable = some false)

/-- `shouldRetryAfterError`: the source requires a truthy `lastErrorAt`
(so `0`, meaning "no failure recorded", disables the retry clause). -/
def shouldRetryAfterError (c : OCache) (e : OEnv) : Bool :=
  gribTruthy e && toolsAvail e && decide (c.source ≠ .wgrib2) &&
    decide (c.lastErrorAt ≠ 0) && decide (RETRY_INTERVAL_MS ≤ e.now - c.lastErrorAt)

/-- The guard of the regeneration branch:
`gribMtimeMs && cache.pipelineAvailable && (mtime differs || shouldRetryAfterError || pipelineJustBecameAvailable)`. -/
def regenWarranted (c : OCache) (e : OEnv) : Bool :=
  gribTruthy e && toolsAvail e &&
    (decide (c.gribMtimeMs ≠ e.gribMtimeMs) || shouldRetryAfterError c e ||
      justBecameAvailable c e)

/-- `shouldRefreshSynthetic`: `now - cache.updatedAt > 30_000` (in JS a
negative difference is also not `> 30000`, matching truncated `Nat`
subtraction). -/
def shouldRefreshSynthetic (c : OCache) (e : OEnv) : Bool :=
  decide (30000 < e.now - c.updatedAt)

/-- The staleness test of the two synthetic-fallback branches:
`cache.updatedAt === 0 || shouldRefreshSynthetic || !existsSync(overlayPng)`. -/
def staleTest (c : OCache) (e : OEnv) : Bool :=
  decide (c.updatedAt = 0) || shouldRefreshSynthetic c e || !e.overlayExists

/-- Filesystem actions of one orchestrator pass, in order.  `pipelineRun`
stands for the conversion pipeline invocation (whose own actions are
`convertGribToPngViaPipeline`'s trace); `writeSynthTmp` is
`writeSyntheticPng(overlayTmpPng, …)`; `unlinkFinal` + `renameTmpToFinal` is
`atomicReplaceFile`; `writeSynthFinalDirect` is
`writeSyntheticPng(overlayPng, …)` — a write landing directly on the final
artifact path. -/
inductive OAct where
  | pipelineRun
  | writeSynthTmp
  | unlinkFinal
  | renameTmpToFinal
  | writeSynthFinalDirect
deriving DecidableEq

/-- The cache update of the pipeline-success branch. -/
def applySuccess (c : OCache) (e : OEnv) (r : ConvResult) : OCache :=
  { c with
    updatedAt := e.tUpd, bounds := r.bounds, source := .wgrib2,
    message := "OK: " ++ e.varKey ++ " wgrib2 (" ++ r.matchExpr ++
      ") -> gdalwarp EPSG:3857 -> gdaldem color-relief",
    gribMtimeMs := e.gribMtimeMs, pipelineAvailable := some (toolsAvail e),
    lastErrorAt := 0 }

/-- The cache update of the pipeline-failure branch. -/
noncomputable def applyFailure (c : OCache) (e : OEnv) (msg : String) : OCache :=
  { c with
    updatedAt := e.tUpd, bounds := FRANCE_BOUNDS, source := .synthetic,
    message := "Erreur pipeline: " ++ detailsString (some msg),
    gribMtimeMs := e.gribMtimeMs, pipelineAvailable := some (toolsAvail e),
    lastErrorAt := e.tUpd }

/-- One sequential pass of `ensureOverlayUpToDate` for a key: probe and record
`pipelineAvailable`, then the regeneration branch (success or failure), else
the grib-missing synthetic branch, else the tools-unavailable synthetic
branch, else no further mutation. -/
noncomputable def ensureOverlayStep (c : OCache) (e : OEnv) : OCache × List OAct :=
  let c1 : OCache := { c with pipelineAvailable := some (toolsAvail e) }
  if regenWarranted c e then
    match e.pipeResult with
    | .ok r => (applySuccess c e r, [.pipelineRun])
    | .error msg =>
      (applyFailure c e msg, [.pipelineRun, .writeSynthTmp, .unlinkFinal, .renameTmpToFinal])
  else if !gribTruthy e && staleTest c e then
    ({ c1 with
        updatedAt := e.tUpd, bounds := FRANCE_BOUNDS, source := .synthetic,
        message := "GRIB manquant: place un fichier en " ++ e.gribPath,
        gribMtimeMs := none },
      [.writeSynthFinalDirect])
  else if gribTruthy e && !toolsAvail e && staleTest c e then
    ({ c1 with
        updatedAt := e.tUpd, bounds := FRANCE_BOUNDS, source := .synthetic,
        message := "GRIB détecté mais outils indisponibles (" ++ missingToolsMsg e ++
          "). Fallback synthétique.",
        gribMtimeMs := e.gribMtimeMs },
      [.writeSynthFinalDirect])
  else (c1, [])

/-- Modelled from the claim's words (C3, literal reading): clause (b) is "the
entry's current source is not the toolchain and the backoff interval (default
15s) has elapsed since `lastErrorAt`" — with no requirement that a failure was
ever recorded (`lastErrorAt` may be `0`). -/
def specWarrantedLiteral (c : OCache) (e : OEnv) : Bool :=
  gribTruthy e && toolsAvail e &&
    (decide (c.gribMtimeMs ≠ e.gribMtimeMs) ||
      (decide (c.source ≠ .wgrib2) && decide (RETRY_INTERVAL_MS ≤ e.now - c.lastErrorAt)) ||
      justBecameAvailable c e)

/-- The amended claim's regeneration condition (C3): clause (b) additionally
requires that a failure timestamp is recorded (`lastErrorAt ≠ 0`). -/
def specWarrantedAmended (c : OCache) (e : OEnv) : Bool :=
  gribTruthy e && toolsAvail e &&
    (decide (c.gribMtimeMs ≠ e.gribMtimeMs) ||
      (decide (c.source ≠ .wgrib2) && decide (c.lastErrorAt ≠ 0) &&
        decide (RETRY_INTERVAL_MS ≤ e.now - c.lastErrorAt)) ||
      justBecameAvailable c e)

/-- The invariant of C8: a synthetic entry always carries the whole-region
default bounding box. -/
def syntheticInv (c : OCache) : Prop :=
  c.source = .synthetic → c.bounds = FRANCE_BOUNDS

/-! ### Concurrency model for one cache key (C1)

The server is single-process with cooperative (event-loop) scheduling, so a
request's pass through `ensureOverlayUpToDate` is a sequence of atomic blocks
separated by its `await`s.  For one key, under the scenario of C1 (source file
present with a fixed mtime, toolchain available, palette present, no cached
artifact), a request's blocks are:

* entry up to the `stat` await (samples `now`, no shared-state effect);
* after the `stat`: read `prevPipelineAvailable`, then suspend on the
  `hasCmd` probes (`readPrev`);
* the synchronous block from `cache.pipelineAvailable = …` through
  `conversionsInFlight.set(key, p)` — the decision and the in-flight
  registration happen with no `await` in between, so they form one atomic
  block (`decideStep`);
* for the request that started the conversion: the continuation after
  `await p`.  On success the `Object.assign` and the `finally` delete are one
  synchronous block (`complete`); on failure the `catch`'s `Object.assign`
  runs first (`completeF`; promise reactions run in registration order, and
  the runner's `await p` was registered before any awaiter's), then the
  synthetic write to the temp path (`fwrite`), the atomic replace (`frename`),
  and the `finally` delete (`ffinally`) each follow their own awaits;
* for awaiting requests: `await inflight` resumes only after the promise
  settles — returning normally on success, throwing on failure (`resume`);
* the route handler's read of the entry after `ensureOverlayUpToDate`
  returns (`observe`).

Any interleaving of these blocks across concurrently arriving requests is
allowed. -/

/-- Per-request control state. -/
inductive RPC where
  | start
  | ready (prev : Option Bool)
  | runningPC
  | awaitingPC
  | fw1
  | fw2
  | fw3
  | returned
  | donePC (obs : ℕ)
  | errored
deriving DecidableEq

/-- Whether the single conversion promise has been created/settled. -/
inductive RunState where
  | notStarted
  | runningRS
  | settled
deriving DecidableEq

/-- The fixed scenario environment: the key's source-file mtime `m` (the file
is present throughout), the per-request `Date.now()` samples, `Date.now()` at
the completion update, and the one conversion's outcome. -/
structure CEnv where
  m : ℕ
  nows : ℕ → ℕ
  tDone : ℕ
  outcome : Except String ConvResult
  varKey : String

/-- The orchestrator environment request `i` observes in the C1 scenario. -/
noncomputable def envFor (env : CEnv) (i : ℕ) : OEnv :=
  ⟨env.nows i, env.tDone, some env.m, true, true, true, true, env.outcome, env.varKey, ""⟩

/-- Global state: the key's cache entry, its `conversionsInFlight` registration,
the conversion promise's status, the number of pipeline executions started, the
number of synthetic fallback writes, and each request's control state. -/
structure GState where
  cache : OCache
  inflight : Bool
  run : RunState
  execCount : ℕ
  synthCount : ℕ
  procs : List RPC

/-- Scheduler labels: which request's next atomic block runs. -/
inductive CLabel where
  | readPrev (i : ℕ)
  | decideStep (i : ℕ)
  | complete (i : ℕ)
  | completeF (i : ℕ)
  | fwrite (i : ℕ)
  | frename (i : ℕ)
  | ffinally (i : ℕ)
  | resume (i : ℕ)
  | observe (i : ℕ)
deriving DecidableEq

/-- One atomic block.  `none` when the label is not enabled in `s`. -/
noncomputable def cstep (env : CEnv) (s : GState) : CLabel → Option GState
  | .readPrev i =>
    match s.procs.get? i with
    | some .start => some { s with procs := s.procs.set i (.ready s.cache.pipelineAvailable) }
    | _ => none
  | .decideStep i =>
    match s.procs.get? i with
    | some (.ready prev) =>
      let c1 : OCache := { s.cache with pipelineAvailable := some true }
      if regenWarranted { s.cache with pipelineAvailable := prev } (envFor env i) then
        if s.inflight then
          some { s with cache := c1, procs := s.procs.set i .awaitingPC }
        else
          some { s with
                 cache := c1, inflight := true, run := .runningRS,
                 execCount := s.execCount + 1, procs := s.procs.set i .runningPC }
      else
        -- with the scenario's mtime present and tools available the two
        -- synthetic fallback branches are disabled, so the pass just returns
        some { s with cache := c1, procs := s.procs.set i .returned }
    | _ => none
  | .complete i =>
    match s.procs.get? i, env.outcome with
    | some .runningPC, .ok r =>
      some { s with
             cache := applySuccess s.cache (envFor env i) r, inflight := false,
             run := .settled, procs := s.procs.set i .returned }
    | _, _ => none
  | .completeF i =>
    match s.procs.get? i, env.outcome with
    | some .runningPC, .error msg =>
      some { s with
             cache := applyFailure s.cache (envFor env i) msg,
             run := .settled, procs := s.procs.set i .fw1 }
    | _, _ => none
  | .fwrite i =>
    match s.procs.get? i with
    | some .fw1 => some { s with synthCount := s.synthCount + 1, procs := s.procs.set i .fw2 }
    | _ => none
  | .frename i =>
    match s.procs.get? i with
    | some .fw2 => some { s with procs := s.procs.set i .fw3 }
    | _ => none
  | .ffinally i =>
    match s.procs.get? i with
    | some .fw3 => some { s with inflight := false, procs := s.procs.set i .returned }
    | _ => none
  | .resume i =>
    match s.procs.get? i, s.run with
    | some .awaitingPC, .settled =>
      match env.outcome with
      | .ok _ => some { s with procs := s.procs.set i .returned }
      | .error _ => some { s with procs := s.procs.set i .errored }
    | _, _ => none
  | .observe i =>
    match s.procs.get? i with
    | some .returned => some { s with procs := s.procs.set i (.donePC s.cache.updatedAt) }
    | _ => none

/-- Run a schedule. -/
noncomputable def runTrace (env : CEnv) : GState → List CLabel → Option GState
  | s, [] => some s
  | s, l :: tr => match cstep env s l with
    | some s1 => runTrace env s1 tr
    | none => none

/-- Initial state: fresh cache entry, no registration, `n` requests arriving. -/
noncomputable def initState (n : ℕ) : GState :=
  ⟨makeEmptyCache, false, .notStarted, 0, 0, List.replicate n .start⟩

/-- The C1 scenario condition on a schedule: the concurrent requests all make
their regeneration decision while no cached artifact exists, i.e. no
`decideStep` occurs after the conversion completed. -/
def scenOK : Bool → List CLabel → Bool
  | _, [] => true
  | completed, l :: tr =>
    match l with
    | .decideStep _ => if completed then false else scenOK completed tr
    | .complete _ => scenOK true tr
    | .completeF _ => scenOK true tr
    | _ => scenOK completed tr

/-- A request that finished: its handler responded (with the entry, or with the
propagated conversion error). -/
def RPC.finished : RPC → Prop
  | .donePC _ => True
  | .errored => True
  | _ => False

/-! ## Theorems -/

/-! ### Border transparency: frame conditions and idempotence (C10, C7) -/

theorem Raster.ext' {a b : Raster} (hw : a.width = b.width) (hh : a.height = b.height)
    (hd : ∀ i, a.data i = b.data i) : a = b := by
  cases a; cases b
  simp only [Raster.mk.injEq]
  exact ⟨hw, hh, funext hd⟩

theorem maskBackground_data (img : Raster) (tol k i : ℕ) :
    (maskBackground img tol k).data i = if zeroCond img tol k i then 0 else img.data i := rfl

theorem zeroCond_iff (img : Raster) (tol k i : ℕ) :
    zeroCond img tol k i = true ↔
      i % 4 = 3 ∧ i / 4 < img.width * img.height ∧ img.data i ≠ 0 ∧
        withinTol tol k (img.data (4 * (i / 4))) (img.data (4 * (i / 4) + 1))
          (img.data (4 * (i / 4) + 2)) = true := by
  simp [zeroCond, Bool.and_eq_true, decide_eq_true_eq, and_assoc]

theorem maskBackground_data_of_not_alpha (img : Raster) (tol k i : ℕ) (h : i % 4 ≠ 3) :
    (maskBackground img tol k).data i = img.data i := by
  rw [maskBackground_data, if_neg]
  intro hz
  exact h ((zeroCond_iff img tol k i).1 hz).1

theorem zeroCond_maskBackground (img : Raster) (tol k i : ℕ) :
    zeroCond (maskBackground img tol k) tol k i = false := by
  by_contra h
  rw [Bool.not_eq_false] at h
  obtain ⟨h3, hlt, hne, htol⟩ := (zeroCond_iff _ tol k i).1 h
  have hr : (maskBackground img tol k).data (4 * (i / 4)) = img.data (4 * (i / 4)) :=
    maskBackground_data_of_not_alpha img tol k _ (by omega)
  have hg : (maskBackground img tol k).data (4 * (i / 4) + 1) = img.data (4 * (i / 4) + 1) :=
    maskBackground_data_of_not_alpha img tol k _ (by omega)
  have hb : (maskBackground img tol k).data (4 * (i / 4) + 2) = img.data (4 * (i / 4) + 2) :=
    maskBackground_data_of_not_alpha img tol k _ (by omega)
  rw [hr, hg, hb] at htol
  rw [maskBackground_data] at hne
  by_cases hz : zeroCond img tol k i = true
  · rw [if_pos hz] at hne
    exact hne rfl
  · rw [if_neg hz] at hne
    exact hz ((zeroCond_iff img tol k i).2
      ⟨h3, by simpa [maskBackground] using hlt, hne, htol⟩)

theorem maskBackground_idem (img : Raster) (tol k : ℕ) :
    maskBackground (maskBackground img tol k) tol k = maskBackground img tol k := by
  refine Raster.ext' rfl rfl fun i => ?_
  rw [maskBackground_data, zeroCond_maskBackground, if_neg (by simp)]

theorem makeDominant_width (tol : ℕ) (img : Raster) :
    (makeDominantBorderColorTransparent tol img).width = img.width := by
  unfold makeDominantBorderColorTransparent
  split
  · rfl
  · split <;> rfl

theorem makeDominant_height (tol : ℕ) (img : Raster) :
    (makeDominantBorderColorTransparent tol img).height = img.height := by
  unfold makeDominantBorderColorTransparent
  split
  · rfl
  · split <;> rfl

theorem makeDominant_of_none (tol : ℕ) {img : Raster}
    (hdim : ¬(img.width = 0 ∨ img.height = 0)) (hd : dominantKey img = none) :
    makeDominantBorderColorTransparent tol img = img := by
  unfold makeDominantBorderColorTransparent
  rw [if_neg hdim, hd]

theorem makeDominant_of_some (tol : ℕ) {img : Raster} {k : ℕ}
    (hdim : ¬(img.width = 0 ∨ img.height = 0)) (hd : dominantKey img = some k) :
    makeDominantBorderColorTransparent tol img = maskBackground img tol k := by
  unfold makeDominantBorderColorTransparent
  rw [if_neg hdim, hd]

/-- C10: border transparency never alters color data — the raster's width and
height are unchanged, every index either keeps its value or is an in-range
alpha byte zeroed from a non-zero value, no byte ever increases, non-alpha
bytes (in particular every R, G, B component) are unchanged, and an alpha that
is already zero is left untouched. -/
theorem borderTransparency_frame (tol : ℕ) (img : Raster) (i : ℕ) :
    (makeDominantBorderColorTransparent tol img).width = img.width ∧
    (makeDominantBorderColorTransparent tol img).height = img.height ∧
    ((makeDominantBorderColorTransparent tol img).data i = img.data i ∨
      (i % 4 = 3 ∧ i / 4 < img.width * img.height ∧ img.data i ≠ 0 ∧
        (makeDominantBorderColorTransparent tol img).data i = 0)) ∧
    (makeDominantBorderColorTransparent tol img).data i ≤ img.data i ∧
    (i % 4 ≠ 3 → (makeDominantBorderColorTransparent tol img).data i = img.data i) ∧
    (img.data i = 0 → (makeDominantBorderColorTransparent tol img).data i = img.data i) := by
  refine ⟨makeDominant_width tol img, makeDominant_height tol img, ?_⟩
  have key : (makeDominantBorderColorTransparent tol img).data i = img.data i ∨
      (i % 4 = 3 ∧ i / 4 < img.width * img.height ∧ img.data i ≠ 0 ∧
        (makeDominantBorderColorTransparent tol img).data i = 0) := by
    unfold makeDominantBorderColorTransparent
    split
    · exact Or.inl rfl
    · split
      · exact Or.inl rfl
      · rename_i k _
        rw [maskBackground_data]
        by_cases hz : zeroCond img tol k i = true
        · obtain ⟨h3, hlt, hne, _⟩ := (zeroCond_iff img tol k i).1 hz
          exact Or.inr ⟨h3, hlt, hne, by rw [if_pos hz]⟩
        · exact Or.inl (by rw [if_neg hz])
  refine ⟨key, ?_, ?_, ?_⟩
  · rcases key with h | ⟨_, _, _, h⟩
    · exact h.le
    · simp [h]
  · intro h3
    rcases key with h | ⟨h3', _, _, _⟩
    · exact h
    · exact absurd h3' h3
  · intro h0
    rcases key with h | ⟨_, _, hne, _⟩
    · exact h
    · exact absurd h0 hne

/-- A 2×1 raster fully opaque in a single color, used as concrete input. -/
def imgWitC10 : Raster :=
  ⟨2, 1, fun i => if i < 8 then (if i % 4 = 3 then 255 else 7) else 0⟩

/-- Witness for C10 at a concrete raster and index. -/
theorem borderTransparency_frame_witness :
    ((3 : ℕ) % 4 ≠ 3 → False) ∧
    (2 % 4 ≠ 3 →
      (makeDominantBorderColorTransparent 10 imgWitC10).data 2 = imgWitC10.data 2) ∧
    (imgWitC10.data 9 = 0 →
      (makeDominantBorderColorTransparent 10 imgWitC10).data 9 = imgWitC10.data 9) ∧
    (makeDominantBorderColorTransparent 10 imgWitC10).data 3 ≤ imgWitC10.data 3 := by
  refine ⟨by decide, ?_, ?_, ?_⟩
  · exact (borderTransparency_frame 10 imgWitC10 2).2.2.2.2.1
  · exact (borderTransparency_frame 10 imgWitC10 9).2.2.2.2.2
  · exact (borderTransparency_frame 10 imgWitC10 3).2.2.2.1

/-- C7 (amended): border transparency is idempotent whenever the dominant
border color recomputed on the processed raster is unchanged (or no border
pixel retains alpha, so no dominant color exists at all); with a different
recomputed dominant color a second application may clear further pixels. -/
theorem borderTransparency_idem (tol : ℕ) (img : Raster)
    (h : dominantKey (makeDominantBorderColorTransparent tol img) = dominantKey img ∨
      dominantKey (makeDominantBorderColorTransparent tol img) = none) :
    makeDominantBorderColorTransparent tol (makeDominantBorderColorTransparent tol img) =
      makeDominantBorderColorTransparent tol img := by
  by_cases hdim : img.width = 0 ∨ img.height = 0
  · have h1 : makeDominantBorderColorTransparent tol img = img := by
      unfold makeDominantBorderColorTransparent
      rw [if_pos hdim]
    rw [h1, h1]
  · cases hd : dominantKey img with
    | none =>
      have h1 : makeDominantBorderColorTransparent tol img = img :=
        makeDominant_of_none tol hdim hd
      rw [h1, h1]
    | some k =>
      have h1 : makeDominantBorderColorTransparent tol img = maskBackground img tol k :=
        makeDominant_of_some tol hdim hd
      rw [h1] at h ⊢
      have hdim' : ¬((maskBackground img tol k).width = 0 ∨
          (maskBackground img tol k).height = 0) := hdim
      rcases h with h | h
      · rw [hd] at h
        rw [makeDominant_of_some tol hdim' h]
        exact maskBackground_idem img tol k
      · exact makeDominant_of_none tol hdim' h

/-- A 1×1 raster with one opaque gray pixel: after one pass every border pixel
is transparent, so the recomputed dominant color is `none`. -/
def imgWitC7 : Raster :=
  ⟨1, 1, fun i => if i < 4 then (if i % 4 = 3 then 255 else 5) else 0⟩

/-- Witness for C7 at a concrete raster. -/
theorem borderTransparency_idem_witness :
    (dominantKey (makeDominantBorderColorTransparent 10 imgWitC7) =
        dominantKey imgWitC7 ∨
      dominantKey (makeDominantBorderColorTransparent 10 imgWitC7) = none) ∧
    makeDominantBorderColorTransparent 10 (makeDominantBorderColorTransparent 10 imgWitC7) =
      makeDominantBorderColorTransparent 10 imgWitC7 :=
  ⟨Or.inr (by decide), borderTransparency_idem 10 imgWitC7 (Or.inr (by decide))⟩

/-- A 5×1 raster: three black pixels then two gray ones, all opaque.  The first
pass removes the black background; the second pass then finds gray dominant
and clears the gray pixels as well. -/
def imgCexC7 : Raster :=
  ⟨5, 1, fun i =>
    if i < 12 then (if i % 4 = 3 then 255 else 0)
    else if i < 20 then (if i % 4 = 3 then 255 else 100)
    else 0⟩

/-- C7 counterexample: running border transparency twice on `imgCexC7` clears
the alpha of pixel `(3, 0)` (buffer index 15), which the first pass had left
at 255 — the second application does change additional pixels. -/
theorem borderTransparency_not_idem :
    (makeDominantBorderColorTransparent 10 imgCexC7).data 15 = 255 ∧
    (makeDominantBorderColorTransparent 10
        (makeDominantBorderColorTransparent 10 imgCexC7)).data 15 = 0 := by
  constructor
  · decide
  · decide

/-! ### Request normalization (C9) -/

theorem normalizeVar_eq (s : String) :
    normalizeVarParam (some s) =
      if s = "" then none
      else if jsToUpper (jsTrim s) ∈ allowedVars then some (jsToUpper (jsTrim s)) else none := rfl

theorem normalizeHour_eq (s : String) :
    normalizeHourParam (some s) =
      if s = "" then none
      else if ((hourToken s).length = 1 ∨ (hourToken s).length = 2) ∧ isDigits (hourToken s) then
        if 8 ≤ natOfDigits (hourToken s) ∧ natOfDigits (hourToken s) ≤ 15 then
          some (pad2 (natOfDigits (hourToken s)))
        else none
      else none := rfl

theorem normalizeVar_mem {v : Option String} {u : String}
    (h : normalizeVarParam v = some u) : u ∈ allowedVars := by
  match v with
  | none => simp [normalizeVarParam] at h
  | some s =>
    rw [normalizeVar_eq] at h
    split_ifs at h with h1 h2
    cases h
    exact h2

/-- C9 (amended): input normalization yields a valid key.  The variable
parameter is trimmed and uppercased and accepted exactly when the result
belongs to the fixed enumerated set (so matching ignores case and surrounding
whitespace), any invalid or absent value falling back to the configured
default; the hour parameter is accepted exactly when, after trimming,
uppercasing and stripping one optional trailing `H`, it is one or two digits
denoting an integer in `8..15`, in which case it is returned zero-padded to
two digits, every other value being treated as absent. -/
theorem paramNormalization (s : String) :
    resolvedVar (some s) ∈ allowedVars ∧
    resolvedVar none = DEFAULT_VAR ∧
    DEFAULT_VAR ∈ allowedVars ∧
    normalizeHourParam none = none ∧
    (∀ u : String, normalizeVarParam (some s) = some u ↔
      (s ≠ "" ∧ u = jsToUpper (jsTrim s) ∧ u ∈ allowedVars)) ∧
    (∀ o : String, normalizeHourParam (some s) = some o ↔
      (s ≠ "" ∧ ((hourToken s).length = 1 ∨ (hourToken s).length = 2) ∧
        isDigits (hourToken s) = true ∧ 8 ≤ natOfDigits (hourToken s) ∧
        natOfDigits (hourToken s) ≤ 15 ∧ o = pad2 (natOfDigits (hourToken s)))) := by
  refine ⟨?_, rfl, by decide, rfl, ?_, ?_⟩
  · unfold resolvedVar
    cases h : normalizeVarParam (some s) with
    | none => exact (by decide : DEFAULT_VAR ∈ allowedVars)
    | some u => exact normalizeVar_mem h
  · intro u
    constructor
    · intro h
      rw [normalizeVar_eq] at h
      split_ifs at h with h1 h2
      cases h
      exact ⟨h1, rfl, h2⟩
    · rintro ⟨h1, rfl, h2⟩
      rw [normalizeVar_eq, if_neg h1, if_pos h2]
  · intro o
    constructor
    · intro h
      rw [normalizeHour_eq] at h
      split_ifs at h with h1 h2 h3
      cases h
      exact ⟨h1, h2.1, h2.2, h3.1, h3.2, rfl⟩
    · rintro ⟨h1, h2, h3, h4, h5, rfl⟩
      rw [normalizeHour_eq, if_neg h1, if_pos ⟨h2, h3⟩, if_pos ⟨h4, h5⟩]

/-- Witness for C9 at concrete inputs. -/
theorem paramNormalization_witness :
    resolvedVar (some "rprate") ∈ allowedVars ∧
    (normalizeVarParam (some "rprate") = some "RPRATE" ↔
      ("rprate" : String) ≠ "" ∧ ("RPRATE" : String) = jsToUpper (jsTrim "rprate") ∧
        ("RPRATE" : String) ∈ allowedVars) ∧
    (normalizeHourParam (some "9") = some "09" ↔
      ("9" : String) ≠ "" ∧ ((hourToken "9").length = 1 ∨ (hourToken "9").length = 2) ∧
        isDigits (hourToken "9") = true ∧ 8 ≤ natOfDigits (hourToken "9") ∧
        natOfDigits (hourToken "9") ≤ 15 ∧ ("09" : String) = pad2 (natOfDigits (hourToken "9"))) :=
  ⟨(paramNormalization "rprate").1, (paramNormalization "rprate").2.2.2.2.1 "RPRATE",
    (paramNormalization "9").2.2.2.2.2 "09"⟩

/-- C9 counterexample: the source trims the variable parameter before
uppercasing and uppercases the hour parameter before stripping the trailing
`H`.  On the inputs `"cape "` and `"8h"` the code accepts (`CAPE`, `08`) while
the claim's uppercase-only / strip-`'H'`-only reading rejects both (the
variable then falls back to the default `RPRATE`). -/
theorem paramNormalization_cex :
    resolvedVar (some "cape ") = "CAPE" ∧
    specResolvedVar (some "cape ") = "RPRATE" ∧
    ("CAPE" : String) ≠ "RPRATE" ∧
    normalizeHourParam (some "8h") = some "08" ∧
    specNormalizeHourParam (some "8h") = none := by
  refine ⟨by decide, by decide, by decide, by decide, by decide⟩

/-! ### Geo-bounds resolver (C5) -/

theorem looksGeographic_iff (gt : Geotransform) :
    geotransformLooksGeographic gt ↔ specLooksGeographic gt := by
  simp only [geotransformLooksGeographic, specLooksGeographic, Set.mem_Ioc]
  tauto

/-- C5: the resolver computes the crop rectangle's coordinate-space extent with
the claim's formulas, classifies the transform as geographic exactly under the
claim's magnitude heuristic, takes the direct per-axis min/max box in the
geographic case, and otherwise inverts the two corners through the spherical
Mercator inverse (with `R = 6378137`, via `mercatorToLonLat`) and takes the
per-axis min/max of the two inverted corners. -/
theorem geoBoundsResolver (gt : Geotransform) (r : PixRect) :
    (geotransformLooksGeographic gt ↔
      (|gt.x0| ≤ 360 ∧ |gt.y0| ≤ 180 ∧ |gt.pxW| ∈ Set.Ioc (0 : ℝ) 5 ∧
        |gt.pxH| ∈ Set.Ioc (0 : ℝ) 5)) ∧
    pipelineCropBounds gt r = specResolveBounds gt r ∧
    ((geotransformLooksGeographic gt ∧
        pipelineCropBounds gt r =
          ((min (gt.y0 + ((r.maxRow : ℝ) + 1) * gt.pxH) (gt.y0 + (r.minRow : ℝ) * gt.pxH),
              min (gt.x0 + (r.minCol : ℝ) * gt.pxW) (gt.x0 + ((r.maxCol : ℝ) + 1) * gt.pxW)),
            (max (gt.y0 + ((r.maxRow : ℝ) + 1) * gt.pxH) (gt.y0 + (r.minRow : ℝ) * gt.pxH),
              max (gt.x0 + (r.minCol : ℝ) * gt.pxW)
                (gt.x0 + ((r.maxCol : ℝ) + 1) * gt.pxW)))) ∨
      (¬geotransformLooksGeographic gt ∧
        pipelineCropBounds gt r =
          ((min (mercatorToLonLat (gt.x0 + (r.minCol : ℝ) * gt.pxW)
                  (gt.y0 + ((r.maxRow : ℝ) + 1) * gt.pxH)).2
              (mercatorToLonLat (gt.x0 + ((r.maxCol : ℝ) + 1) * gt.pxW)
                  (gt.y0 + (r.minRow : ℝ) * gt.pxH)).2,
              min (mercatorToLonLat (gt.x0 + (r.minCol : ℝ) * gt.pxW)
                    (gt.y0 + ((r.maxRow : ℝ) + 1) * gt.pxH)).1
                (mercatorToLonLat (gt.x0 + ((r.maxCol : ℝ) + 1) * gt.pxW)
                    (gt.y0 + (r.minRow : ℝ) * gt.pxH)).1),
            (max (mercatorToLonLat (gt.x0 + (r.minCol : ℝ) * gt.pxW)
                    (gt.y0 + ((r.maxRow : ℝ) + 1) * gt.pxH)).2
                (mercatorToLonLat (gt.x0 + ((r.maxCol : ℝ) + 1) * gt.pxW)
                    (gt.y0 + (r.minRow : ℝ) * gt.pxH)).2,
              max (mercatorToLonLat (gt.x0 + (r.minCol : ℝ) * gt.pxW)
                    (gt.y0 + ((r.maxRow : ℝ) + 1) * gt.pxH)).1
                (mercatorToLonLat (gt.x0 + ((r.maxCol : ℝ) + 1) * gt.pxW)
                    (gt.y0 + (r.minRow : ℝ) * gt.pxH)).1)))) := by
  refine ⟨looksGeographic_iff gt, ?_, ?_⟩
  · by_cases hg : geotransformLooksGeographic gt
    · have hs : specLooksGeographic gt := (looksGeographic_iff gt).1 hg
      simp only [pipelineCropBounds, specResolveBounds]
      rw [if_pos hg, if_pos hs]
    · have hs : ¬specLooksGeographic gt := fun h => hg ((looksGeographic_iff gt).2 h)
      simp only [pipelineCropBounds, specResolveBounds]
      rw [if_neg hg, if_neg hs]
  · by_cases hg : geotransformLooksGeographic gt
    · refine Or.inl ⟨hg, ?_⟩
      simp only [pipelineCropBounds]
      rw [if_pos hg]
    · refine Or.inr ⟨hg, ?_⟩
      simp only [pipelineCropBounds]
      rw [if_neg hg]

/-! ### Conversion pipeline (C4) -/

theorem CandOutcome.isFail_iff {o : CandOutcome} : o.isFail = true ↔ ∃ d, o = .fail d := by
  cases o <;> simp [CandOutcome.isFail]

/-- The diagnostic the candidate loop ends with: the details of the last
element of `l` when there is one (under the all-fail hypothesis it is a
failure), else the incoming accumulator. -/
def lastFailDetails (env : PipeEnv) (l : List String) (le : Option String) : Option String :=
  match l.getLast? with
  | none => le
  | some e => (env.cand e).detailsOf

theorem lastFailDetails_cons (env : PipeEnv) (a : String) (l : List String)
    (le : Option String) (d : String) (ha : env.cand a = .fail d) :
    lastFailDetails env (a :: l) le = lastFailDetails env l (some d) := by
  unfold lastFailDetails
  cases l with
  | nil => simp [ha, CandOutcome.detailsOf]
  | cons b l' =>
    rw [List.getLast?_cons_cons]
    cases hgl : (b :: l').getLast? with
    | none => exact absurd hgl (by simp)
    | some x => simp only [hgl]

theorem tryCandidates_all_fail (env : PipeEnv) :
    ∀ (l : List String) (le : Option String),
      (∀ e ∈ l, (env.cand e).isFail = true) →
      tryCandidates env l le = (none, lastFailDetails env l le, l.map PAct.attempt) := by
  intro l
  induction l with
  | nil => intro le _; rfl
  | cons a l' ih =>
    intro le hall
    obtain ⟨d, hd⟩ := CandOutcome.isFail_iff.1 (hall a (by simp))
    have ih' := ih (some d) fun e he => hall e (by simp [he])
    simp only [tryCandidates, hd, ih']
    rw [lastFailDetails_cons env a l' le d hd]
    rfl

theorem tryCandidates_first_ok (env : PipeEnv) :
    ∀ (pre : List String) (e : String) (post : List String) (le : Option String)
      (gt : Geotransform) (crop : Option PixRect),
      (∀ e2 ∈ pre, (env.cand e2).isFail = true) →
      env.cand e = .ok gt crop →
      tryCandidates env (pre ++ e :: post) le =
        (some ⟨candBounds gt crop, e⟩, lastFailDetails env pre le,
          pre.map PAct.attempt ++ [.attempt e, .unlinkFinal, .renameTmpToFinal]) := by
  intro pre
  induction pre with
  | nil =>
    intro e post le gt crop _ he
    simp only [List.nil_append, tryCandidates, he, List.map_nil]
    rfl
  | cons a pre' ih =>
    intro e post le gt crop hall he
    obtain ⟨d, hd⟩ := CandOutcome.isFail_iff.1 (hall a (by simp))
    have ih' := ih e post (some d) gt crop (fun e2 h2 => hall e2 (by simp [h2])) he
    simp only [List.cons_append, tryCandidates, hd, List.append_eq, ih']
    rw [lastFailDetails_cons env a pre' le d hd]
    simp

/-- C4: the pipeline tries the candidate expressions strictly in list order;
the first candidate whose steps all succeed yields the result with its bounds
and that expression, with no later candidate attempted; if every candidate
fails the single thrown diagnostic lists all attempted expressions and carries
the most recent (last) underlying error collapsed and truncated to 600
characters; and a missing palette file fails before any toolchain invocation.
(`effectiveMatches` is the source's substitution of the configured default list
for an empty candidate list.) -/
theorem conversionPipeline (env : PipeEnv) (exprs : List String) :
    (env.paletteExists = false →
      convertGribToPngViaPipeline env exprs =
        (.error ("Palette manquante: " ++ DATA_PALETTE), [])) ∧
    (∀ pre e post gt crop, env.paletteExists = true →
      effectiveMatches exprs = pre ++ e :: post →
      (∀ e2 ∈ pre, (env.cand e2).isFail = true) →
      env.cand e = .ok gt crop →
      convertGribToPngViaPipeline env exprs =
        (.ok ⟨candBounds gt crop, e⟩,
          pre.map PAct.attempt ++ [.attempt e, .unlinkFinal, .renameTmpToFinal])) ∧
    (env.paletteExists = true →
      (∀ e ∈ effectiveMatches exprs, (env.cand e).isFail = true) →
      convertGribToPngViaPipeline env exprs =
        (.error (aucunMsg (effectiveMatches exprs)
            (lastFailDetails env (effectiveMatches exprs) none)),
          (effectiveMatches exprs).map PAct.attempt)) ∧
    (∀ d : String, detailsString (some d) = truncate600 (wsCollapse d) ∧
      (detailsString (some d)).length ≤ 600) := by
  refine ⟨?_, ?_, ?_, ?_⟩
  · intro h
    simp only [convertGribToPngViaPipeline, h, if_pos]
  · intro pre e post gt crop hp hms hall he
    simp only [convertGribToPngViaPipeline, hp, Bool.true_eq_false, if_neg, if_false, hms,
      tryCandidates_first_ok env pre e post none gt crop hall he]
  · intro hp hall
    simp only [convertGribToPngViaPipeline, hp, Bool.true_eq_false, if_neg, if_false,
      tryCandidates_all_fail env _ none hall]
  · intro d
    refine ⟨rfl, ?_⟩
    show ((wsCollapse d).toList.take 600).length ≤ 600
    calc ((wsCollapse d).toList.take 600).length
        = min 600 (wsCollapse d).toList.length := List.length_take _ _
      _ ≤ 600 := min_le_left _ _

/-- The geotransform used by concrete pipeline runs below. -/
noncomputable def gtWit : Geotransform := ⟨0, 1, 0, 0, 0, 1⟩

/-- A concrete pipeline environment: palette present, `:PRATE:` succeeds with
an empty content crop, every other candidate fails. -/
noncomputable def pipeEnvWit : PipeEnv :=
  ⟨true, fun e => if e = ":PRATE:" then .ok gtWit none else .fail ("echec " ++ e)⟩

/-- Witness for C4: with the default candidate list, `:RPRATE:` fails and
`:PRATE:` succeeds, so the pipeline returns `:PRATE:` and stops. -/
theorem conversionPipeline_witness :
    pipeEnvWit.paletteExists = true ∧
    effectiveMatches GRIB_MATCHES = [":RPRATE:"] ++ ":PRATE:" :: [":APCP:"] ∧
    (∀ e2 ∈ [":RPRATE:"], (pipeEnvWit.cand e2).isFail = true) ∧
    pipeEnvWit.cand ":PRATE:" = .ok gtWit none ∧
    convertGribToPngViaPipeline pipeEnvWit GRIB_MATCHES =
      (.ok ⟨candBounds gtWit none, ":PRATE:"⟩,
        [PAct.attempt ":RPRATE:", .attempt ":PRATE:", .unlinkFinal, .renameTmpToFinal]) := by
  have hfail : ∀ e2 ∈ [":RPRATE:"], (pipeEnvWit.cand e2).isFail = true := by
    intro e2 h2
    rw [List.mem_singleton] at h2
    subst h2
    rfl
  refine ⟨rfl, rfl, hfail, rfl, ?_⟩
  exact (conversionPipeline pipeEnvWit GRIB_MATCHES).2.1 [":RPRATE:"] ":PRATE:" [":APCP:"]
    gtWit none rfl rfl hfail rfl

/-! ### Orchestrator branch lemmas (C2, C3, C8) -/

theorem ensureOverlayStep_ok {c : OCache} {e : OEnv} {r : ConvResult}
    (hw : regenWarranted c e = true) (hr : e.pipeResult = .ok r) :
    ensureOverlayStep c e = (applySuccess c e r, [.pipelineRun]) := by
  unfold ensureOverlayStep
  rw [if_pos hw, hr]

theorem ensureOverlayStep_err {c : OCache} {e : OEnv} {msg : String}
    (hw : regenWarranted c e = true) (hr : e.pipeResult = .error msg) :
    ensureOverlayStep c e =
      (applyFailure c e msg,
        [.pipelineRun, .writeSynthTmp, .unlinkFinal, .renameTmpToFinal]) := by
  unfold ensureOverlayStep
  rw [if_pos hw, hr]

theorem ensureOverlayStep_missing {c : OCache} {e : OEnv}
    (hw : regenWarranted c e = false) (hg : gribTruthy e = false)
    (hs : staleTest c e = true) :
    ensureOverlayStep c e =
      ({ c with
          pipelineAvailable := some (toolsAvail e), updatedAt := e.tUpd,
          bounds := FRANCE_BOUNDS, source := .synthetic,
          message := "GRIB manquant: place un fichier en " ++ e.gribPath,
          gribMtimeMs := none },
        [.writeSynthFinalDirect]) := by
  unfold ensureOverlayStep
  rw [if_neg (by simp [hw]), if_pos (by simp [hg, hs])]

theorem ensureOverlayStep_toolsDown {c : OCache} {e : OEnv}
    (hw : regenWarranted c e = false) (hg : gribTruthy e = true)
    (ha : toolsAvail e = false) (hs : staleTest c e = true) :
    ensureOverlayStep c e =
      ({ c with
          pipelineAvailable := some (toolsAvail e), updatedAt := e.tUpd,
          bounds := FRANCE_BOUNDS, source := .synthetic,
          message := "GRIB détecté mais outils indisponibles (" ++ missingToolsMsg e ++
            "). Fallback synthétique.",
          gribMtimeMs := e.gribMtimeMs },
        [.writeSynthFinalDirect]) := by
  unfold ensureOverlayStep
  rw [if_neg (by simp [hw]), if_neg (by simp [hg]), if_pos (by simp [hg, ha, hs])]

theorem ensureOverlayStep_noop {c : OCache} {e : OEnv}
    (hw : regenWarranted c e = false)
    (h2 : ¬(gribTruthy e = false ∧ staleTest c e = true))
    (h3 : ¬(gribTruthy e = true ∧ toolsAvail e = false ∧ staleTest c e = true)) :
    ensureOverlayStep c e = ({ c with pipelineAvailable := some (toolsAvail e) }, []) := by
  unfold ensureOverlayStep
  rw [if_neg (by simp [hw]), if_neg, if_neg]
  · intro hb
    rw [Bool.and_eq_true, Bool.and_eq_true] at hb
    exact h3 ⟨hb.1.1, by simpa using hb.1.2, hb.2⟩
  · intro hb
    rw [Bool.and_eq_true] at hb
    exact h2 ⟨by simpa using hb.1, hb.2⟩

/-- C8: every orchestrator operation preserves the invariant that a synthetic
entry carries the whole-region default bounding box: it holds of the freshly
created entry, and one request pass (covering the pipeline-failure,
source-file-missing and toolchain-unavailable synthetic branches, the
pipeline-success branch, and the no-op path) preserves it. -/
theorem syntheticDefaultBounds :
    syntheticInv makeEmptyCache ∧
    ∀ (c : OCache) (e : OEnv), syntheticInv c → syntheticInv (ensureOverlayStep c e).1 := by
  refine ⟨fun _ => rfl, ?_⟩
  intro c e hc
  by_cases hw : regenWarranted c e = true
  · cases hr : e.pipeResult with
    | ok r =>
      rw [ensureOverlayStep_ok hw hr]
      intro hsrc
      exact absurd hsrc (by simp [applySuccess])
    | error msg =>
      rw [ensureOverlayStep_err hw hr]
      intro _
      rfl
  · rw [Bool.not_eq_true] at hw
    by_cases h2 : gribTruthy e = false ∧ staleTest c e = true
    · rw [ensureOverlayStep_missing hw h2.1 h2.2]
      intro _
      rfl
    · by_cases h3 : gribTruthy e = true ∧ toolsAvail e = false ∧ staleTest c e = true
      · rw [ensureOverlayStep_toolsDown hw h3.1 h3.2.1 h3.2.2]
        intro _
        rfl
      · rw [ensureOverlayStep_noop hw h2 h3]
        intro hsrc
        exact hc hsrc

/-- An environment with the source file present and the toolchain available. -/
noncomputable def envWitC8 : OEnv :=
  ⟨1000, 1500, some 5, true, true, true, true, .error "boom", "RPRATE", "data/precip.grib2"⟩

/-- Witness for C8: the invariant holds of the fresh entry and is preserved by
a concrete pass (here a pipeline failure, which rewrites the entry to
synthetic with the default bounds). -/
theorem syntheticDefaultBounds_witness :
    syntheticInv makeEmptyCache ∧ syntheticInv (ensureOverlayStep makeEmptyCache envWitC8).1 :=
  ⟨syntheticDefaultBounds.1,
    syntheticDefaultBounds.2 makeEmptyCache envWitC8 fun _ => rfl⟩

/-! ### Regeneration decision and backoff (C3) -/

theorem regenWarranted_eq_amended (c : OCache) (e : OEnv) :
    regenWarranted c e = specWarrantedAmended c e := by
  unfold regenWarranted specWarrantedAmended shouldRetryAfterError justBecameAvailable
  cases hg : gribTruthy e <;> cases ha : toolsAvail e <;>
    simp [hg, ha, Bool.and_assoc]

/-- C3 (amended): the orchestrator invokes the Conversion Pipeline exactly once
iff the modification time exists, the probe reports all executables available,
and any of (a) the modification time differs from the cached one, (b) the
entry's source is not the toolchain, a failure timestamp is recorded
(`lastErrorAt ≠ 0`), and the backoff interval has elapsed since it, (c) the
toolchain transitioned from unavailable to available; in particular after a
pipeline failure a request with an unchanged modification time within the
interval triggers no attempt, and one after the interval triggers exactly
one. -/
theorem orchestratorRegeneration (c : OCache) (e : OEnv) :
    ((ensureOverlayStep c e).2.count .pipelineRun =
      if specWarrantedAmended c e then 1 else 0) ∧
    (OAct.pipelineRun ∈ (ensureOverlayStep c e).2 ↔ specWarrantedAmended c e = true) ∧
    (c.lastErrorAt ≠ 0 → c.source ≠ .wgrib2 → c.gribMtimeMs = e.gribMtimeMs →
      gribTruthy e = true → toolsAvail e = true → justBecameAvailable c e = false →
      ((e.now < c.lastErrorAt + RETRY_INTERVAL_MS →
          (ensureOverlayStep c e).2.count .pipelineRun = 0) ∧
        (c.lastErrorAt + RETRY_INTERVAL_MS ≤ e.now →
          (ensureOverlayStep c e).2.count .pipelineRun = 1))) := by
  have hcount : (ensureOverlayStep c e).2.count .pipelineRun =
      if specWarrantedAmended c e then 1 else 0 := by
    rw [← regenWarranted_eq_amended]
    by_cases hw : regenWarranted c e = true
    · rw [if_pos hw]
      cases hr : e.pipeResult with
      | ok r => rw [ensureOverlayStep_ok hw hr]; rfl
      | error msg => rw [ensureOverlayStep_err hw hr]; rfl
    · rw [if_neg hw]
      rw [Bool.not_eq_true] at hw
      by_cases h2 : gribTruthy e = false ∧ staleTest c e = true
      · rw [ensureOverlayStep_missing hw h2.1 h2.2]; rfl
      · by_cases h3 : gribTruthy e = true ∧ toolsAvail e = false ∧ staleTest c e = true
        · rw [ensureOverlayStep_toolsDown hw h3.1 h3.2.1 h3.2.2]; rfl
        · rw [ensureOverlayStep_noop hw h2 h3]; rfl
  refine ⟨hcount, ?_, ?_⟩
  · constructor
    · intro hmem
      by_contra hspec
      rw [Bool.not_eq_true] at hspec
      rw [hspec, if_neg (by simp)] at hcount
      rw [List.count_eq_zero] at hcount
      exact hcount hmem
    · intro hspec
      rw [hspec, if_pos rfl] at hcount
      exact List.count_pos_iff.1 (by rw [hcount]; norm_num)
  · intro hne hsrc hmt hg ha hedge
    have hb : specWarrantedAmended c e =
        (decide (c.lastErrorAt ≠ 0) && decide (RETRY_INTERVAL_MS ≤ e.now - c.lastErrorAt)) := by
      unfold specWarrantedAmended
      rw [hg, ha, hedge, hmt]
      simp [hsrc]
    constructor
    · intro hlt
      rw [hcount, hb, if_neg]
      simp only [Bool.and_eq_true, decide_eq_true_eq, not_and]
      intro _ hle
      have hR : RETRY_INTERVAL_MS = 15000 := rfl
      omega
    · intro hle
      rw [hcount, hb, if_pos]
      simp only [Bool.and_eq_true, decide_eq_true_eq]
      exact ⟨hne, by omega⟩

/-- A cache entry as left by a pipeline failure at time 500. -/
noncomputable def cFailC3 : OCache :=
  ⟨500, FRANCE_BOUNDS, .synthetic, "Erreur pipeline: x", some 7, some true, 500⟩

/-- A request 9.5 s after the failure, with an unchanged modification time. -/
noncomputable def eInC3 : OEnv :=
  ⟨10000, 10100, some 7, true, true, true, true, .error "y", "RPRATE", "p"⟩

/-- A request 15.5 s after the failure, with an unchanged modification time. -/
noncomputable def eAfterC3 : OEnv :=
  ⟨16000, 16100, some 7, true, true, true, true, .error "y", "RPRATE", "p"⟩

/-- Witness for C3: within the backoff interval no pipeline run, after it
exactly one. -/
theorem orchestratorRegeneration_witness :
    (ensureOverlayStep cFailC3 eInC3).2.count .pipelineRun = 0 ∧
    (ensureOverlayStep cFailC3 eAfterC3).2.count .pipelineRun = 1 :=
  ⟨((orchestratorRegeneration cFailC3 eInC3).2.2 (by decide) (by decide) rfl rfl rfl
      (by decide)).1 (by decide),
    ((orchestratorRegeneration cFailC3 eAfterC3).2.2 (by decide) (by decide) rfl rfl rfl
      (by decide)).2 (by decide)⟩

/-- The first request of the C3 counterexample run: grib present (mtime 5) but
the toolchain unavailable, against a fresh entry — takes the
toolchain-unavailable synthetic branch. -/
noncomputable def e1C3 : OEnv :=
  ⟨100, 150, some 5, false, false, false, false, .error "x", "RPRATE", "p"⟩

/-- The second request: the grib file is temporarily absent (say renamed away),
the toolchain is now available, and the artifact is fresh and on disk — the
pass only re-records `pipelineAvailable`, consuming the availability edge. -/
noncomputable def e2C3 : OEnv :=
  ⟨1000, 1100, none, true, true, true, true, .error "x", "RPRATE", "p"⟩

/-- The third request: the grib file is back with its original mtime 5
(a rename preserves mtimes), toolchain available. -/
noncomputable def e3C3 : OEnv :=
  ⟨20000, 20100, some 5, true, true, true, true, .error "x", "RPRATE", "p"⟩

/-- The entry reached after the first two requests: `source = synthetic`,
`lastErrorAt = 0`, cached mtime equal to the file's current mtime, toolchain
recorded available. -/
noncomputable def reachedC3 : OCache :=
  (ensureOverlayStep (ensureOverlayStep makeEmptyCache e1C3).1 e2C3).1

/-- C3 counterexample: at the reachable entry `reachedC3`, the claim's literal
clause (b) — source is not the toolchain and 15 s have elapsed since
`lastErrorAt` (which is 0, no failure ever having been recorded) — makes the
claimed condition true, yet the code triggers no pipeline invocation, because
the source additionally requires a truthy `lastErrorAt`. -/
theorem orchestratorRegeneration_cex :
    specWarrantedLiteral reachedC3 e3C3 = true ∧
    (ensureOverlayStep reachedC3 e3C3).2 = [] ∧
    specWarrantedAmended reachedC3 e3C3 = false ∧
    reachedC3.source = .synthetic ∧
    reachedC3.lastErrorAt = 0 ∧
    reachedC3.gribMtimeMs = some 5 ∧
    reachedC3.pipelineAvailable = some true := by
  refine ⟨by decide, by decide, by decide, by decide, by decide, by decide, by decide⟩

/-! ### Atomic publish (C2) -/

theorem tryCandidates_no_direct (env : PipeEnv) :
    ∀ (l : List String) (le : Option String),
      PAct.writeFinalDirect ∉ (tryCandidates env l le).2.2 := by
  intro l
  induction l with
  | nil => intro le h; cases h
  | cons a l' ih =>
    intro le
    cases ha : env.cand a with
    | ok gt crop => simp [tryCandidates, ha]
    | fail d =>
      simp only [tryCandidates, ha, List.mem_cons]
      rintro (h | h)
      · cases h
      · exact ih (some d) h

theorem tryCandidates_head (env : PipeEnv) :
    ∀ (l : List String) (le : Option String),
      (tryCandidates env l le).2.2[0]? ≠ some PAct.renameTmpToFinal := by
  intro l le
  cases l with
  | nil => simp [tryCandidates]
  | cons a l' =>
    cases ha : env.cand a with
    | ok gt crop => simp [tryCandidates, ha]
    | fail d => simp [tryCandidates, ha]

theorem tryCandidates_pred (env : PipeEnv) :
    ∀ (l : List String) (le : Option String) (n : ℕ),
      (tryCandidates env l le).2.2[n + 1]? = some PAct.renameTmpToFinal →
      (tryCandidates env l le).2.2[n]? = some PAct.unlinkFinal := by
  intro l
  induction l with
  | nil => intro le n h; simp [tryCandidates] at h
  | cons a l' ih =>
    intro le n
    cases ha : env.cand a with
    | ok gt crop =>
      simp only [tryCandidates, ha]
      match n with
      | 0 => intro h; simp at h
      | 1 => intro _; rfl
      | 2 => intro h; simp at h
      | n + 3 => intro h; simp at h
    | fail d =>
      simp only [tryCandidates, ha]
      match n with
      | 0 =>
        intro h
        rw [List.getElem?_cons_succ] at h
        exact absurd h (tryCandidates_head env l' (some d))
      | m + 1 =>
        intro h
        rw [List.getElem?_cons_succ] at h
        rw [List.getElem?_cons_succ]
        exact ih (some d) m h

theorem convert_trace (env : PipeEnv) (exprs : List String) :
    (convertGribToPngViaPipeline env exprs).2 =
      if env.paletteExists = false then []
      else (tryCandidates env (effectiveMatches exprs) none).2.2 := by
  unfold convertGribToPngViaPipeline
  by_cases hp : env.paletteExists = false
  · rw [if_pos hp, if_pos hp]
  · rw [if_neg hp, if_neg hp]
    rcases htr : tryCandidates env (effectiveMatches exprs) none with ⟨a, b, tr⟩
    simp only [htr]
    cases a <;> rfl

/-- C2 (amended): every artifact write of the conversion pipeline — including
the publish after a successful candidate and the synthetic write after a
pipeline failure — goes through the temp path followed by
remove-destination-then-rename (`atomicReplaceFile`), and the pipeline never
writes the final path directly; the two remaining synthetic-fallback paths
(source grid file missing, toolchain unavailable) however write the synthetic
PNG directly to the final artifact path, with no temp file and no rename. -/
theorem atomicPublish (env : PipeEnv) (exprs : List String) (c : OCache) (e : OEnv) :
    PAct.writeFinalDirect ∉ (convertGribToPngViaPipeline env exprs).2 ∧
    (convertGribToPngViaPipeline env exprs).2[0]? ≠ some PAct.renameTmpToFinal ∧
    (∀ n, (convertGribToPngViaPipeline env exprs).2[n + 1]? = some PAct.renameTmpToFinal →
      (convertGribToPngViaPipeline env exprs).2[n]? = some PAct.unlinkFinal) ∧
    (regenWarranted c e = true → ∀ msg, e.pipeResult = .error msg →
      (ensureOverlayStep c e).2 =
        [OAct.pipelineRun, .writeSynthTmp, .unlinkFinal, .renameTmpToFinal]) ∧
    (OAct.writeSynthFinalDirect ∈ (ensureOverlayStep c e).2 ↔
      (staleTest c e = true ∧ (gribTruthy e = false ∨ toolsAvail e = false))) ∧
    (OAct.writeSynthFinalDirect ∈ (ensureOverlayStep c e).2 →
      (ensureOverlayStep c e).2 = [OAct.writeSynthFinalDirect]) := by
  have hdirect : OAct.writeSynthFinalDirect ∈ (ensureOverlayStep c e).2 ↔
      (staleTest c e = true ∧ (gribTruthy e = false ∨ toolsAvail e = false)) := by
    constructor
    · intro hmem
      by_cases hw : regenWarranted c e = true
      · exfalso
        cases hr : e.pipeResult with
        | ok r => rw [ensureOverlayStep_ok hw hr] at hmem; simp at hmem
        | error msg => rw [ensureOverlayStep_err hw hr] at hmem; simp at hmem
      · rw [Bool.not_eq_true] at hw
        by_cases h2 : gribTruthy e = false ∧ staleTest c e = true
        · exact ⟨h2.2, Or.inl h2.1⟩
        · by_cases h3 : gribTruthy e = true ∧ toolsAvail e = false ∧ staleTest c e = true
          · exact ⟨h3.2.2, Or.inr h3.2.1⟩
          · rw [ensureOverlayStep_noop hw h2 h3] at hmem
            cases hmem
    · rintro ⟨hs, hga⟩
      have hw : regenWarranted c e = false := by
        unfold regenWarranted
        rcases hga with hg | ha
        · rw [hg]; rfl
        · rw [ha]; simp
      rcases hga with hg | ha
      · rw [ensureOverlayStep_missing hw hg hs]; simp
      · by_cases hg : gribTruthy e = true
        · rw [ensureOverlayStep_toolsDown hw hg ha hs]; simp
        · rw [Bool.not_eq_true] at hg
          rw [ensureOverlayStep_missing hw hg hs]; simp
  refine ⟨?_, ?_, ?_, ?_, hdirect, ?_⟩
  · rw [convert_trace]
    by_cases hp : env.paletteExists = false
    · rw [if_pos hp]; simp
    · rw [if_neg hp]; exact tryCandidates_no_direct env _ none
  · rw [convert_trace]
    by_cases hp : env.paletteExists = false
    · rw [if_pos hp]; simp
    · rw [if_neg hp]; exact tryCandidates_head env _ none
  · intro n
    rw [convert_trace]
    by_cases hp : env.paletteExists = false
    · rw [if_pos hp]; intro h; simp at h
    · rw [if_neg hp]; exact tryCandidates_pred env _ none n
  · intro hw msg hr
    rw [ensureOverlayStep_err hw hr]
  · intro hmem
    rcases hdirect.1 hmem with ⟨hs, hga⟩
    have hw : regenWarranted c e = false := by
      unfold regenWarranted
      rcases hga with hg | ha
      · rw [hg]; rfl
      · rw [ha]; simp
    rcases hga with hg | ha
    · rw [ensureOverlayStep_missing hw hg hs]
    · by_cases hg : gribTruthy e = true
      · rw [ensureOverlayStep_toolsDown hw hg ha hs]
      · rw [Bool.not_eq_true] at hg
        rw [ensureOverlayStep_missing hw hg hs]

/-- The environment of the C2 counterexample: fresh entry, source grid file
missing, toolchain available, no artifact on disk. -/
noncomputable def envMissingC2 : OEnv :=
  ⟨1000, 1500, none, true, true, true, false, .error "x", "RPRATE", "data/precip.grib2"⟩

/-- C2 counterexample: on the source-file-missing fallback path the synthetic
artifact is produced by a single write landing directly on the final artifact
path — no temp-path write, no remove, no rename — so not every artifact write
goes through the temp-then-replace protocol. -/
theorem atomicPublish_cex :
    (ensureOverlayStep makeEmptyCache envMissingC2).2 = [OAct.writeSynthFinalDirect] ∧
    OAct.writeSynthTmp ∉ (ensureOverlayStep makeEmptyCache envMissingC2).2 ∧
    OAct.unlinkFinal ∉ (ensureOverlayStep makeEmptyCache envMissingC2).2 ∧
    OAct.renameTmpToFinal ∉ (ensureOverlayStep makeEmptyCache envMissingC2).2 := by
  refine ⟨by decide, by decide, by decide, by decide⟩

/-- Witness for C2: a concrete pipeline failure publishes the synthetic
artifact via temp + remove + rename, and on a concrete successful pipeline
trace the rename at index 3 is immediately preceded by the remove at index 2. -/
theorem atomicPublish_witness :
    (ensureOverlayStep makeEmptyCache envWitC8).2 =
      [OAct.pipelineRun, .writeSynthTmp, .unlinkFinal, .renameTmpToFinal] ∧
    (convertGribToPngViaPipeline pipeEnvWit GRIB_MATCHES).2[3]? =
      some PAct.renameTmpToFinal ∧
    (convertGribToPngViaPipeline pipeEnvWit GRIB_MATCHES).2[2]? = some PAct.unlinkFinal :=
  ⟨(atomicPublish pipeEnvWit GRIB_MATCHES makeEmptyCache envWitC8).2.2.2.1 (by decide)
      "boom" rfl,
    by decide,
    (atomicPublish pipeEnvWit GRIB_MATCHES makeEmptyCache envWitC8).2.2.1 2 (by decide)⟩

/-! ### Content crop: scan characterization (C6) -/

/-- A pixel that the bounding-box scan counts: alpha at or above the
threshold. -/
abbrev qualPix (img : Raster) (thr : ℕ) (xy : ℕ × ℕ) : Prop :=
  thr ≤ img.data (pixIdx img.width xy.1 xy.2 + 3)

theorem scanStep_of_qual {img : Raster} {thr : ℕ} (s : Scan4) {xy : ℕ × ℕ}
    (h : qualPix img thr xy) :
    scanStep img thr s xy = ⟨min s.minX xy.1, min s.minY xy.2, max s.maxX xy.1, max s.maxY xy.2⟩ := by
  unfold scanStep
  exact if_pos h

theorem scanStep_of_not_qual {img : Raster} {thr : ℕ} (s : Scan4) {xy : ℕ × ℕ}
    (h : ¬qualPix img thr xy) : scanStep img thr s xy = s := by
  unfold scanStep
  exact if_neg h

theorem scan_mono (img : Raster) (thr : ℕ) :
    ∀ (L : List (ℕ × ℕ)) (s : Scan4),
      (L.foldl (scanStep img thr) s).minX ≤ s.minX ∧
      (L.foldl (scanStep img thr) s).minY ≤ s.minY ∧
      s.maxX ≤ (L.foldl (scanStep img thr) s).maxX ∧
      s.maxY ≤ (L.foldl (scanStep img thr) s).maxY := by
  intro L
  induction L with
  | nil => intro s; exact ⟨le_refl _, le_refl _, le_refl _, le_refl _⟩
  | cons a L' ih =>
    intro s
    rw [List.foldl_cons]
    by_cases hq : qualPix img thr a
    · rw [scanStep_of_qual s hq]
      obtain ⟨h1, h2, h3, h4⟩ :=
        ih ⟨min s.minX a.1, min s.minY a.2, max s.maxX a.1, max s.maxY a.2⟩
      exact ⟨h1.trans (min_le_left _ _), h2.trans (min_le_left _ _),
        (le_max_left _ _).trans h3, (le_max_left _ _).trans h4⟩
    · rw [scanStep_of_not_qual s hq]
      exact ih s

theorem scan_bounds (img : Raster) (thr : ℕ) :
    ∀ (L : List (ℕ × ℕ)) (s : Scan4) (xy : ℕ × ℕ), xy ∈ L → qualPix img thr xy →
      (L.foldl (scanStep img thr) s).minX ≤ xy.1 ∧
      (xy.1 : ℤ) ≤ (L.foldl (scanStep img thr) s).maxX ∧
      (L.foldl (scanStep img thr) s).minY ≤ xy.2 ∧
      (xy.2 : ℤ) ≤ (L.foldl (scanStep img thr) s).maxY := by
  intro L
  induction L with
  | nil => intro s xy h; cases h
  | cons a L' ih =>
    intro s xy hmem hq
    rw [List.foldl_cons]
    rcases List.mem_cons.1 hmem with rfl | hmem'
    · rw [scanStep_of_qual s hq]
      obtain ⟨h1, h2, h3, h4⟩ :=
        scan_mono img thr L' ⟨min s.minX xy.1, min s.minY xy.2, max s.maxX xy.1, max s.maxY xy.2⟩
      exact ⟨h1.trans (min_le_right _ _), (le_max_right _ _).trans h3,
        h2.trans (min_le_right _ _), (le_max_right _ _).trans h4⟩
    · exact ih (scanStep img thr s a) xy hmem' hq

theorem scan_minX_attained (img : Raster) (thr : ℕ) :
    ∀ (L : List (ℕ × ℕ)) (s : Scan4),
      (L.foldl (scanStep img thr) s).minX = s.minX ∨
        ∃ xy ∈ L, qualPix img thr xy ∧ (L.foldl (scanStep img thr) s).minX = xy.1 := by
  intro L
  induction L with
  | nil => intro s; exact Or.inl rfl
  | cons a L' ih =>
    intro s
    rw [List.foldl_cons]
    by_cases hq : qualPix img thr a
    · rw [scanStep_of_qual s hq]
      rcases ih ⟨min s.minX a.1, min s.minY a.2, max s.maxX a.1, max s.maxY a.2⟩ with h | ⟨xy, hm, hxq, hx⟩
      · rw [h]
        rcases min_choice s.minX (a.1 : ℤ) with hc | hc
        · exact Or.inl hc
        · exact Or.inr ⟨a, by simp, hq, hc⟩
      · exact Or.inr ⟨xy, by simp [hm], hxq, hx⟩
    · rw [scanStep_of_not_qual s hq]
      rcases ih s with h | ⟨xy, hm, hxq, hx⟩
      · exact Or.inl h
      · exact Or.inr ⟨xy, by simp [hm], hxq, hx⟩

theorem scan_minY_attained (img : Raster) (thr : ℕ) :
    ∀ (L : List (ℕ × ℕ)) (s : Scan4),
      (L.foldl (scanStep img thr) s).minY = s.minY ∨
        ∃ xy ∈ L, qualPix img thr xy ∧ (L.foldl (scanStep img thr) s).minY = xy.2 := by
  intro L
  induction L with
  | nil => intro s; exact Or.inl rfl
  | cons a L' ih =>
    intro s
    rw [List.foldl_cons]
    by_cases hq : qualPix img thr a
    · rw [scanStep_of_qual s hq]
      rcases ih ⟨min s.minX a.1, min s.minY a.2, max s.maxX a.1, max s.maxY a.2⟩ with h | ⟨xy, hm, hxq, hx⟩
      · rw [h]
        rcases min_choice s.minY (a.2 : ℤ) with hc | hc
        · exact Or.inl hc
        · exact Or.inr ⟨a, by simp, hq, hc⟩
      · exact Or.inr ⟨xy, by simp [hm], hxq, hx⟩
    · rw [scanStep_of_not_qual s hq]
      rcases ih s with h | ⟨xy, hm, hxq, hx⟩
      · exact Or.inl h
      · exact Or.inr ⟨xy, by simp [hm], hxq, hx⟩

theorem scan_maxX_attained (img : Raster) (thr : ℕ) :
    ∀ (L : List (ℕ × ℕ)) (s : Scan4),
      (L.foldl (scanStep img thr) s).maxX = s.maxX ∨
        ∃ xy ∈ L, qualPix img thr xy ∧ (L.foldl (scanStep img thr) s).maxX = xy.1 := by
  intro L
  induction L with
  | nil => intro s; exact Or.inl rfl
  | cons a L' ih =>
    intro s
    rw [List.foldl_cons]
    by_cases hq : qualPix img thr a
    · rw [scanStep_of_qual s hq]
      rcases ih ⟨min s.minX a.1, min s.minY a.2, max s.maxX a.1, max s.maxY a.2⟩ with h | ⟨xy, hm, hxq, hx⟩
      · rw [h]
        rcases max_choice s.maxX (a.1 : ℤ) with hc | hc
        · exact Or.inl hc
        · exact Or.inr ⟨a, by simp, hq, hc⟩
      · exact Or.inr ⟨xy, by simp [hm], hxq, hx⟩
    · rw [scanStep_of_not_qual s hq]
      rcases ih s with h | ⟨xy, hm, hxq, hx⟩
      · exact Or.inl h
      · exact Or.inr ⟨xy, by simp [hm], hxq, hx⟩

theorem scan_maxY_attained (img : Raster) (thr : ℕ) :
    ∀ (L : List (ℕ × ℕ)) (s : Scan4),
      (L.foldl (scanStep img thr) s).maxY = s.maxY ∨
        ∃ xy ∈ L, qualPix img thr xy ∧ (L.foldl (scanStep img thr) s).maxY = xy.2 := by
  intro L
  induction L with
  | nil => intro s; exact Or.inl rfl
  | cons a L' ih =>
    intro s
    rw [List.foldl_cons]
    by_cases hq : qualPix img thr a
    · rw [scanStep_of_qual s hq]
      rcases ih ⟨min s.minX a.1, min s.minY a.2, max s.maxX a.1, max s.maxY a.2⟩ with h | ⟨xy, hm, hxq, hx⟩
      · rw [h]
        rcases max_choice s.maxY (a.2 : ℤ) with hc | hc
        · exact Or.inl hc
        · exact Or.inr ⟨a, by simp, hq, hc⟩
      · exact Or.inr ⟨xy, by simp [hm], hxq, hx⟩
    · rw [scanStep_of_not_qual s hq]
      rcases ih s with h | ⟨xy, hm, hxq, hx⟩
      · exact Or.inl h
      · exact Or.inr ⟨xy, by simp [hm], hxq, hx⟩

theorem scan_no_qual (img : Raster) (thr : ℕ) :
    ∀ (L : List (ℕ × ℕ)) (s : Scan4), (∀ xy ∈ L, ¬qualPix img thr xy) →
      L.foldl (scanStep img thr) s = s := by
  intro L
  induction L with
  | nil => intro s _; rfl
  | cons a L' ih =>
    intro s h
    rw [List.foldl_cons, scanStep_of_not_qual s (h a (by simp)), ih s fun xy hm => h xy (by simp [hm])]

theorem mem_coords {w h : ℕ} {xy : ℕ × ℕ} : xy ∈ coords w h ↔ xy.1 < w ∧ xy.2 < h := by
  obtain ⟨a, b⟩ := xy
  simp only [coords, List.mem_flatMap, List.mem_map, List.mem_range, Prod.mk.injEq]
  constructor
  · rintro ⟨y, hy, x, hx, rfl, rfl⟩
    exact ⟨hx, hy⟩
  · rintro ⟨ha, hb⟩
    exact ⟨b, hb, a, ha, rfl, rfl⟩

theorem cropScan_bounds {img : Raster} {thr x y : ℕ} (hx : x < img.width)
    (hy : y < img.height) (hq : thr ≤ img.data (pixIdx img.width x y + 3)) :
    (cropScan img thr).minX ≤ x ∧ (x : ℤ) ≤ (cropScan img thr).maxX ∧
    (cropScan img thr).minY ≤ y ∧ (y : ℤ) ≤ (cropScan img thr).maxY :=
  scan_bounds img thr (coords img.width img.height) _ (x, y) (mem_coords.2 ⟨hx, hy⟩) hq

theorem cropScan_none_iff (img : Raster) (thr : ℕ) :
    ((cropScan img thr).maxX < (cropScan img thr).minX ∨
      (cropScan img thr).maxY < (cropScan img thr).minY) ↔
      ∀ x y, x < img.width → y < img.height → img.data (pixIdx img.width x y + 3) < thr := by
  constructor
  · intro hlt x y hx hy
    by_contra hq
    rw [not_lt] at hq
    obtain ⟨h1, h2, h3, h4⟩ := cropScan_bounds hx hy hq
    rcases hlt with hlt | hlt
    · exact absurd (h1.trans h2) (not_le.2 hlt)
    · exact absurd (h3.trans h4) (not_le.2 hlt)
  · intro hnone
    have hS : cropScan img thr = ⟨(img.width : ℤ), (img.height : ℤ), -1, -1⟩ := by
      refine scan_no_qual img thr _ _ fun xy hm hq => ?_
      obtain ⟨hx, hy⟩ := mem_coords.1 hm
      exact absurd hq (not_le.2 (hnone xy.1 xy.2 hx hy))
    rw [hS]
    left
    show (-1 : ℤ) < (img.width : ℤ)
    omega

theorem cropPng_none {img : Raster} {thr : ℕ}
    (h : (cropScan img thr).maxX < (cropScan img thr).minX ∨
      (cropScan img thr).maxY < (cropScan img thr).minY) :
    cropPngToNonTransparent thr img = (none, img) := by
  simp only [cropPngToNonTransparent]
  rw [if_pos h]

theorem cropPng_full {img : Raster} {thr : ℕ}
    (h : ¬((cropScan img thr).maxX < (cropScan img thr).minX ∨
      (cropScan img thr).maxY < (cropScan img thr).minY))
    (hfull : (cropScan img thr).maxX - (cropScan img thr).minX + 1 = (img.width : ℤ) ∧
      (cropScan img thr).maxY - (cropScan img thr).minY + 1 = (img.height : ℤ)) :
    cropPngToNonTransparent thr img =
      (some ⟨(cropScan img thr).minX, (cropScan img thr).minY, (cropScan img thr).maxX,
        (cropScan img thr).maxY, img.width, img.height⟩, img) := by
  simp only [cropPngToNonTransparent]
  rw [if_neg h, if_pos hfull]

theorem cropPng_strict {img : Raster} {thr : ℕ}
    (h : ¬((cropScan img thr).maxX < (cropScan img thr).minX ∨
      (cropScan img thr).maxY < (cropScan img thr).minY))
    (hnfull : ¬((cropScan img thr).maxX - (cropScan img thr).minX + 1 = (img.width : ℤ) ∧
      (cropScan img thr).maxY - (cropScan img thr).minY + 1 = (img.height : ℤ))) :
    cropPngToNonTransparent thr img =
      (some ⟨(cropScan img thr).minX, (cropScan img thr).minY, (cropScan img thr).maxX,
        (cropScan img thr).maxY, img.width, img.height⟩,
        { width := ((cropScan img thr).maxX - (cropScan img thr).minX + 1).toNat,
          height := ((cropScan img thr).maxY - (cropScan img thr).minY + 1).toNat,
          data := fun i =>
            if i < 4 * (((cropScan img thr).maxX - (cropScan img thr).minX + 1).toNat *
                ((cropScan img thr).maxY - (cropScan img thr).minY + 1).toNat) then
              img.data
                ((img.width * ((cropScan img thr).minY.toNat +
                      i / 4 / ((cropScan img thr).maxX - (cropScan img thr).minX + 1).toNat) +
                    ((cropScan img thr).minX.toNat +
                      i / 4 % ((cropScan img thr).maxX - (cropScan img thr).minX + 1).toNat)) * 4 +
                  i % 4)
            else 0 }) := by
  simp only [cropPngToNonTransparent]
  rw [if_neg h, if_neg hnfull]

theorem cropPng_some_eq {img : Raster} {thr : ℕ} {r : CropInfo}
    (h : (cropPngToNonTransparent thr img).1 = some r) :
    r = ⟨(cropScan img thr).minX, (cropScan img thr).minY, (cropScan img thr).maxX,
      (cropScan img thr).maxY, img.width, img.height⟩ := by
  by_cases hn : (cropScan img thr).maxX < (cropScan img thr).minX ∨
      (cropScan img thr).maxY < (cropScan img thr).minY
  · rw [cropPng_none hn] at h
    cases h
  · by_cases hfull : (cropScan img thr).maxX - (cropScan img thr).minX + 1 = (img.width : ℤ) ∧
        (cropScan img thr).maxY - (cropScan img thr).minY + 1 = (img.height : ℤ)
    · rw [cropPng_full hn hfull] at h
      exact (Option.some_inj.1 h).symm
    · rw [cropPng_strict hn hfull] at h
      exact (Option.some_inj.1 h).symm

theorem cropPng_fst_of_not_none {img : Raster} {thr : ℕ}
    (h : ¬((cropScan img thr).maxX < (cropScan img thr).minX ∨
      (cropScan img thr).maxY < (cropScan img thr).minY)) :
    (cropPngToNonTransparent thr img).1 =
      some ⟨(cropScan img thr).minX, (cropScan img thr).minY, (cropScan img thr).maxX,
        (cropScan img thr).maxY, img.width, img.height⟩ := by
  by_cases hfull : (cropScan img thr).maxX - (cropScan img thr).minX + 1 = (img.width : ℤ) ∧
      (cropScan img thr).maxY - (cropScan img thr).minY + 1 = (img.height : ℤ)
  · rw [cropPng_full h hfull]
  · rw [cropPng_strict h hfull]

theorem cropPng_not_none {img : Raster} {thr : ℕ} {r : CropInfo}
    (h : (cropPngToNonTransparent thr img).1 = some r) :
    ¬((cropScan img thr).maxX < (cropScan img thr).minX ∨
      (cropScan img thr).maxY < (cropScan img thr).minY) := by
  intro hn
  rw [cropPng_none hn] at h
  cases h

theorem cropScan_minX_attained {img : Raster} {thr : ℕ}
    (hq : ∃ x y, x < img.width ∧ y < img.height ∧ thr ≤ img.data (pixIdx img.width x y + 3)) :
    ∃ x y, x < img.width ∧ y < img.height ∧ thr ≤ img.data (pixIdx img.width x y + 3) ∧
      (cropScan img thr).minX = (x : ℤ) := by
  obtain ⟨x0, y0, hx0, hy0, hq0⟩ := hq
  rcases scan_minX_attained img thr (coords img.width img.height)
      ⟨(img.width : ℤ), (img.height : ℤ), -1, -1⟩ with hinit | ⟨xy, hm, hxq, hx⟩
  · exfalso
    have := (cropScan_bounds hx0 hy0 hq0).1
    rw [show (List.foldl (scanStep img thr) ⟨(img.width : ℤ), (img.height : ℤ), -1, -1⟩
        (coords img.width img.height)) = cropScan img thr from rfl] at hinit
    rw [hinit] at this
    dsimp only at this
    omega
  · obtain ⟨hx1, hy1⟩ := mem_coords.1 hm
    exact ⟨xy.1, xy.2, hx1, hy1, hxq, hx⟩

theorem cropScan_minY_attained {img : Raster} {thr : ℕ}
    (hq : ∃ x y, x < img.width ∧ y < img.height ∧ thr ≤ img.data (pixIdx img.width x y + 3)) :
    ∃ x y, x < img.width ∧ y < img.height ∧ thr ≤ img.data (pixIdx img.width x y + 3) ∧
      (cropScan img thr).minY = (y : ℤ) := by
  obtain ⟨x0, y0, hx0, hy0, hq0⟩ := hq
  rcases scan_minY_attained img thr (coords img.width img.height)
      ⟨(img.width : ℤ), (img.height : ℤ), -1, -1⟩ with hinit | ⟨xy, hm, hxq, hx⟩
  · exfalso
    have := (cropScan_bounds hx0 hy0 hq0).2.2.1
    rw [show (List.foldl (scanStep img thr) ⟨(img.width : ℤ), (img.height : ℤ), -1, -1⟩
        (coords img.width img.height)) = cropScan img thr from rfl] at hinit
    rw [hinit] at this
    dsimp only at this
    omega
  · obtain ⟨hx1, hy1⟩ := mem_coords.1 hm
    exact ⟨xy.1, xy.2, hx1, hy1, hxq, hx⟩

theorem cropScan_maxX_attained {img : Raster} {thr : ℕ}
    (hq : ∃ x y, x < img.width ∧ y < img.height ∧ thr ≤ img.data (pixIdx img.width x y + 3)) :
    ∃ x y, x < img.width ∧ y < img.height ∧ thr ≤ img.data (pixIdx img.width x y + 3) ∧
      (cropScan img thr).maxX = (x : ℤ) := by
  obtain ⟨x0, y0, hx0, hy0, hq0⟩ := hq
  rcases scan_maxX_attained img thr (coords img.width img.height)
      ⟨(img.width : ℤ), (img.height : ℤ), -1, -1⟩ with hinit | ⟨xy, hm, hxq, hx⟩
  · exfalso
    have := (cropScan_bounds hx0 hy0 hq0).2.1
    rw [show (List.foldl (scanStep img thr) ⟨(img.width : ℤ), (img.height : ℤ), -1, -1⟩
        (coords img.width img.height)) = cropScan img thr from rfl] at hinit
    rw [hinit] at this
    dsimp only at this
    omega
  · obtain ⟨hx1, hy1⟩ := mem_coords.1 hm
    exact ⟨xy.1, xy.2, hx1, hy1, hxq, hx⟩

theorem cropScan_maxY_attained {img : Raster} {thr : ℕ}
    (hq : ∃ x y, x < img.width ∧ y < img.height ∧ thr ≤ img.data (pixIdx img.width x y + 3)) :
    ∃ x y, x < img.width ∧ y < img.height ∧ thr ≤ img.data (pixIdx img.width x y + 3) ∧
      (cropScan img thr).maxY = (y : ℤ) := by
  obtain ⟨x0, y0, hx0, hy0, hq0⟩ := hq
  rcases scan_maxY_attained img thr (coords img.width img.height)
      ⟨(img.width : ℤ), (img.height : ℤ), -1, -1⟩ with hinit | ⟨xy, hm, hxq, hx⟩
  · exfalso
    have := (cropScan_bounds hx0 hy0 hq0).2.2.2
    rw [show (List.foldl (scanStep img thr) ⟨(img.width : ℤ), (img.height : ℤ), -1, -1⟩
        (coords img.width img.height)) = cropScan img thr from rfl] at hinit
    rw [hinit] at this
    dsimp only at this
    omega
  · obtain ⟨hx1, hy1⟩ := mem_coords.1 hm
    exact ⟨xy.1, xy.2, hx1, hy1, hxq, hx⟩

/-- C6: content crop computes the minimal axis-aligned rectangle enclosing all
pixels with alpha at or above the threshold: it reports empty (`none`) exactly
when no pixel qualifies, leaving the raster unchanged; a reported rectangle
carries the original dimensions, bounds every qualifying pixel, and attains
each of its four edges at a qualifying pixel; when the rectangle is the full
raster the raster is not rewritten; otherwise the written raster has the
rectangle's dimensions and contains exactly the rectangle's pixels with RGBA
values and pixel order preserved; in particular, for a raster fully opaque on
an axis-aligned rectangle and fully transparent elsewhere, it returns exactly
that rectangle and the cropped raster equals the pixels within it. -/
theorem contentCrop (img : Raster) (thr : ℕ) :
    (((cropPngToNonTransparent thr img).1 = none ↔
        ∀ x y, x < img.width → y < img.height → img.data (pixIdx img.width x y + 3) < thr) ∧
      ((cropPngToNonTransparent thr img).1 = none →
        (cropPngToNonTransparent thr img).2 = img)) ∧
    (∀ r, (cropPngToNonTransparent thr img).1 = some r →
      r.width = img.width ∧ r.height = img.height ∧
      (∀ x y, x < img.width → y < img.height →
        thr ≤ img.data (pixIdx img.width x y + 3) →
        r.minX ≤ (x : ℤ) ∧ (x : ℤ) ≤ r.maxX ∧ r.minY ≤ (y : ℤ) ∧ (y : ℤ) ≤ r.maxY) ∧
      (∃ x y, x < img.width ∧ y < img.height ∧
        thr ≤ img.data (pixIdx img.width x y + 3) ∧ r.minX = (x : ℤ)) ∧
      (∃ x y, x < img.width ∧ y < img.height ∧
        thr ≤ img.data (pixIdx img.width x y + 3) ∧ r.maxX = (x : ℤ)) ∧
      (∃ x y, x < img.width ∧ y < img.height ∧
        thr ≤ img.data (pixIdx img.width x y + 3) ∧ r.minY = (y : ℤ)) ∧
      (∃ x y, x < img.width ∧ y < img.height ∧
        thr ≤ img.data (pixIdx img.width x y + 3) ∧ r.maxY = (y : ℤ))) ∧
    (∀ r, (cropPngToNonTransparent thr img).1 = some r →
      r.maxX - r.minX + 1 = (img.width : ℤ) → r.maxY - r.minY + 1 = (img.height : ℤ) →
      (cropPngToNonTransparent thr img).2 = img) ∧
    (∀ r, (cropPngToNonTransparent thr img).1 = some r →
      ¬(r.maxX - r.minX + 1 = (img.width : ℤ) ∧ r.maxY - r.minY + 1 = (img.height : ℤ)) →
      (cropPngToNonTransparent thr img).2.width = (r.maxX - r.minX + 1).toNat ∧
      (cropPngToNonTransparent thr img).2.height = (r.maxY - r.minY + 1).toNat ∧
      (∀ x y c2, x < (r.maxX - r.minX + 1).toNat → y < (r.maxY - r.minY + 1).toNat →
        c2 < 4 →
        (cropPngToNonTransparent thr img).2.data
            (pixIdx (r.maxX - r.minX + 1).toNat x y + c2) =
          img.data (pixIdx img.width (r.minX.toNat + x) (r.minY.toNat + y) + c2))) ∧
    (∀ rx0 ry0 rx1 ry1 : ℕ, rx0 ≤ rx1 → rx1 < img.width → ry0 ≤ ry1 → ry1 < img.height →
      1 ≤ thr → thr ≤ 255 →
      (∀ x y, x < img.width → y < img.height →
        img.data (pixIdx img.width x y + 3) =
          if rx0 ≤ x ∧ x ≤ rx1 ∧ ry0 ≤ y ∧ y ≤ ry1 then 255 else 0) →
      (cropPngToNonTransparent thr img).1 =
          some ⟨(rx0 : ℤ), (ry0 : ℤ), (rx1 : ℤ), (ry1 : ℤ), img.width, img.height⟩ ∧
        ∀ x y c2, x ≤ rx1 - rx0 → y ≤ ry1 - ry0 → c2 < 4 →
          (cropPngToNonTransparent thr img).2.data (pixIdx (rx1 - rx0 + 1) x y + c2) =
            img.data (pixIdx img.width (rx0 + x) (ry0 + y) + c2)) := by
  have hA1 : (cropPngToNonTransparent thr img).1 = none ↔
      ∀ x y, x < img.width → y < img.height → img.data (pixIdx img.width x y + 3) < thr := by
    constructor
    · intro h
      by_cases hn : (cropScan img thr).maxX < (cropScan img thr).minX ∨
          (cropScan img thr).maxY < (cropScan img thr).minY
      · exact (cropScan_none_iff img thr).1 hn
      · rw [cropPng_fst_of_not_none hn] at h
        cases h
    · intro hall
      rw [cropPng_none ((cropScan_none_iff img thr).2 hall)]
  have hA2 : (cropPngToNonTransparent thr img).1 = none →
      (cropPngToNonTransparent thr img).2 = img := by
    intro h
    rw [cropPng_none ((cropScan_none_iff img thr).2 (hA1.1 h))]
  have hB : ∀ r, (cropPngToNonTransparent thr img).1 = some r →
      r.width = img.width ∧ r.height = img.height ∧
      (∀ x y, x < img.width → y < img.height →
        thr ≤ img.data (pixIdx img.width x y + 3) →
        r.minX ≤ (x : ℤ) ∧ (x : ℤ) ≤ r.maxX ∧ r.minY ≤ (y : ℤ) ∧ (y : ℤ) ≤ r.maxY) ∧
      (∃ x y, x < img.width ∧ y < img.height ∧
        thr ≤ img.data (pixIdx img.width x y + 3) ∧ r.minX = (x : ℤ)) ∧
      (∃ x y, x < img.width ∧ y < img.height ∧
        thr ≤ img.data (pixIdx img.width x y + 3) ∧ r.maxX = (x : ℤ)) ∧
      (∃ x y, x < img.width ∧ y < img.height ∧
        thr ≤ img.data (pixIdx img.width x y + 3) ∧ r.minY = (y : ℤ)) ∧
      (∃ x y, x < img.width ∧ y < img.height ∧
        thr ≤ img.data (pixIdx img.width x y + 3) ∧ r.maxY = (y : ℤ)) := by
    intro r hr
    have hn := cropPng_not_none hr
    have hq : ∃ x y, x < img.width ∧ y < img.height ∧
        thr ≤ img.data (pixIdx img.width x y + 3) := by
      by_contra hc
      push_neg at hc
      exact hn ((cropScan_none_iff img thr).2 fun x y hx hy => hc x y hx hy)
    have hrec := cropPng_some_eq hr
    subst hrec
    exact ⟨rfl, rfl, fun x y hx hy hqp => cropScan_bounds hx hy hqp,
      cropScan_minX_attained hq, cropScan_maxX_attained hq,
      cropScan_minY_attained hq, cropScan_maxY_attained hq⟩
  have hC : ∀ r, (cropPngToNonTransparent thr img).1 = some r →
      r.maxX - r.minX + 1 = (img.width : ℤ) → r.maxY - r.minY + 1 = (img.height : ℤ) →
      (cropPngToNonTransparent thr img).2 = img := by
    intro r hr h1 h2
    have hn := cropPng_not_none hr
    have hrec := cropPng_some_eq hr
    subst hrec
    rw [cropPng_full hn ⟨h1, h2⟩]
  have hD : ∀ r, (cropPngToNonTransparent thr img).1 = some r →
      ¬(r.maxX - r.minX + 1 = (img.width : ℤ) ∧ r.maxY - r.minY + 1 = (img.height : ℤ)) →
      (cropPngToNonTransparent thr img).2.width = (r.maxX - r.minX + 1).toNat ∧
      (cropPngToNonTransparent thr img).2.height = (r.maxY - r.minY + 1).toNat ∧
      (∀ x y c2, x < (r.maxX - r.minX + 1).toNat → y < (r.maxY - r.minY + 1).toNat →
        c2 < 4 →
        (cropPngToNonTransparent thr img).2.data
            (pixIdx (r.maxX - r.minX + 1).toNat x y + c2) =
          img.data (pixIdx img.width (r.minX.toNat + x) (r.minY.toNat + y) + c2)) := by
    intro r hr hnfull
    have hn := cropPng_not_none hr
    have hrec := cropPng_some_eq hr
    subst hrec
    rw [cropPng_strict hn hnfull]
    refine ⟨rfl, rfl, ?_⟩
    intro x y c2 hx hy hc
    set cw := ((cropScan img thr).maxX - (cropScan img thr).minX + 1).toNat with hcw
    set ch := ((cropScan img thr).maxY - (cropScan img thr).minY + 1).toNat with hch
    have hcw0 : 0 < cw := by omega
    have hp : cw * y + x < cw * ch := by
      calc cw * y + x < cw * y + cw := by omega
        _ = cw * (y + 1) := by ring
        _ ≤ cw * ch := Nat.mul_le_mul (le_refl cw) (by omega)
    have hguard : pixIdx cw x y + c2 < 4 * (cw * ch) := by
      show (cw * y + x) * 4 + c2 < 4 * (cw * ch)
      omega
    show (if pixIdx cw x y + c2 < 4 * (cw * ch) then
        img.data ((img.width * ((cropScan img thr).minY.toNat + (pixIdx cw x y + c2) / 4 / cw) +
          ((cropScan img thr).minX.toNat + (pixIdx cw x y + c2) / 4 % cw)) * 4 +
          (pixIdx cw x y + c2) % 4)
      else 0) = img.data (pixIdx img.width ((cropScan img thr).minX.toNat + x)
        ((cropScan img thr).minY.toNat + y) + c2)
    rw [if_pos hguard]
    have hdiv4 : (pixIdx cw x y + c2) / 4 = cw * y + x := by
      show ((cw * y + x) * 4 + c2) / 4 = cw * y + x
      omega
    have hmod4 : (pixIdx cw x y + c2) % 4 = c2 := by
      show ((cw * y + x) * 4 + c2) % 4 = c2
      omega
    have hdivcw : (cw * y + x) / cw = y := by
      rw [Nat.mul_add_div hcw0, Nat.div_eq_of_lt hx, add_zero]
    have hmodcw : (cw * y + x) % cw = x := by
      rw [Nat.mul_add_mod]
      exact Nat.mod_eq_of_lt hx
    rw [hdiv4, hmod4, hdivcw, hmodcw]
    rfl
  refine ⟨⟨hA1, hA2⟩, hB, hC, hD, ?_⟩
  intro rx0 ry0 rx1 ry1 h01 h1w h23 h3h hthr1 hthr2 halpha
  have hqual : ∀ x y, x < img.width → y < img.height →
      (thr ≤ img.data (pixIdx img.width x y + 3) ↔
        (rx0 ≤ x ∧ x ≤ rx1 ∧ ry0 ≤ y ∧ y ≤ ry1)) := by
    intro x y hx hy
    rw [halpha x y hx hy]
    by_cases hin : rx0 ≤ x ∧ x ≤ rx1 ∧ ry0 ≤ y ∧ y ≤ ry1
    · rw [if_pos hin]
      exact ⟨fun _ => hin, fun _ => hthr2⟩
    · rw [if_neg hin]
      exact ⟨fun hle => absurd hle (by omega), fun h => absurd h hin⟩
  have hq : ∃ x y, x < img.width ∧ y < img.height ∧
      thr ≤ img.data (pixIdx img.width x y + 3) :=
    ⟨rx0, ry0, by omega, by omega,
      (hqual rx0 ry0 (by omega) (by omega)).2 ⟨le_refl _, h01, le_refl _, h23⟩⟩
  have hn : ¬((cropScan img thr).maxX < (cropScan img thr).minX ∨
      (cropScan img thr).maxY < (cropScan img thr).minY) := by
    intro hc
    obtain ⟨x, y, hx, hy, hqp⟩ := hq
    exact absurd hqp (not_le.2 ((cropScan_none_iff img thr).1 hc x y hx hy))
  have hminX : (cropScan img thr).minX = (rx0 : ℤ) := by
    obtain ⟨x, y, hx, hy, hqp, heq⟩ := cropScan_minX_attained hq
    have hb := (cropScan_bounds (show rx0 < img.width by omega)
      (show ry0 < img.height by omega)
      ((hqual rx0 ry0 (by omega) (by omega)).2 ⟨le_refl _, h01, le_refl _, h23⟩)).1
    have hin := (hqual x y hx hy).1 hqp
    rw [heq] at hb ⊢
    have : rx0 ≤ x := hin.1
    omega
  have hminY : (cropScan img thr).minY = (ry0 : ℤ) := by
    obtain ⟨x, y, hx, hy, hqp, heq⟩ := cropScan_minY_attained hq
    have hb := (cropScan_bounds (show rx0 < img.width by omega)
      (show ry0 < img.height by omega)
      ((hqual rx0 ry0 (by omega) (by omega)).2 ⟨le_refl _, h01, le_refl _, h23⟩)).2.2.1
    have hin := (hqual x y hx hy).1 hqp
    rw [heq] at hb ⊢
    have : ry0 ≤ y := hin.2.2.1
    omega
  have hmaxX : (cropScan img thr).maxX = (rx1 : ℤ) := by
    obtain ⟨x, y, hx, hy, hqp, heq⟩ := cropScan_maxX_attained hq
    have hb := (cropScan_bounds (show rx1 < img.width by omega)
      (show ry1 < img.height by omega)
      ((hqual rx1 ry1 (by omega) (by omega)).2 ⟨h01, le_refl _, h23, le_refl _⟩)).2.1
    have hin := (hqual x y hx hy).1 hqp
    rw [heq] at hb ⊢
    have : x ≤ rx1 := hin.2.1
    omega
  have hmaxY : (cropScan img thr).maxY = (ry1 : ℤ) := by
    obtain ⟨x, y, hx, hy, hqp, heq⟩ := cropScan_maxY_attained hq
    have hb := (cropScan_bounds (show rx1 < img.width by omega)
      (show ry1 < img.height by omega)
      ((hqual rx1 ry1 (by omega) (by omega)).2 ⟨h01, le_refl _, h23, le_refl _⟩)).2.2.2
    have hin := (hqual x y hx hy).1 hqp
    rw [heq] at hb ⊢
    have : y ≤ ry1 := hin.2.2.2
    omega
  have hfst : (cropPngToNonTransparent thr img).1 =
      some ⟨(rx0 : ℤ), (ry0 : ℤ), (rx1 : ℤ), (ry1 : ℤ), img.width, img.height⟩ := by
    rw [cropPng_fst_of_not_none hn, hminX, hminY, hmaxX, hmaxY]
  refine ⟨hfst, ?_⟩
  intro x y c2 hx hy hc
  by_cases hfull : (cropScan img thr).maxX - (cropScan img thr).minX + 1 = (img.width : ℤ) ∧
      (cropScan img thr).maxY - (cropScan img thr).minY + 1 = (img.height : ℤ)
  · have hsnd : (cropPngToNonTransparent thr img).2 = img := by
      rw [cropPng_full hn hfull]
    rw [hsnd]
    rw [hminX, hmaxX] at hfull
    rw [hminY, hmaxY] at hfull
    have hrx0 : rx0 = 0 := by omega
    have hw : rx1 - rx0 + 1 = img.width := by omega
    have hry0 : ry0 = 0 := by omega
    subst hrx0
    subst hry0
    rw [hw]
    simp
  · have hres := hD ⟨(cropScan img thr).minX, (cropScan img thr).minY, (cropScan img thr).maxX,
      (cropScan img thr).maxY, img.width, img.height⟩ (cropPng_fst_of_not_none hn) hfull
    have hcwEq : ((cropScan img thr).maxX - (cropScan img thr).minX + 1).toNat =
        rx1 - rx0 + 1 := by
      rw [hminX, hmaxX]
      omega
    have hchEq : ((cropScan img thr).maxY - (cropScan img thr).minY + 1).toNat =
        ry1 - ry0 + 1 := by
      rw [hminY, hmaxY]
      omega
    have hminXn : (cropScan img thr).minX.toNat = rx0 := by rw [hminX]; omega
    have hminYn : (cropScan img thr).minY.toNat = ry0 := by rw [hminY]; omega
    have := hres.2.2 x y c2 (by rw [hcwEq]; omega) (by rw [hchEq]; omega) hc
    rw [hcwEq, hminXn, hminYn] at this
    exact this

/-- A 3×2 raster opaque exactly on the rectangle `[1,2] × [0,1]` (columns 1–2,
both rows) and transparent in column 0. -/
def imgWitC6 : Raster :=
  ⟨3, 2, fun i =>
    if i < 24 then (if i % 4 = 3 then (if 1 ≤ i / 4 % 3 then 255 else 0) else 7) else 0⟩

/-- Witness for C6 at a concrete raster: the reported rectangle is exactly the
opaque region, and the cropped raster's pixel `(0, 1)` equals the source pixel
`(1, 1)`. -/
theorem contentCrop_witness :
    (cropPngToNonTransparent 1 imgWitC6).1 =
      some ⟨((1 : ℕ) : ℤ), ((0 : ℕ) : ℤ), ((2 : ℕ) : ℤ), ((1 : ℕ) : ℤ), 3, 2⟩ ∧
    (cropPngToNonTransparent 1 imgWitC6).2.data (pixIdx 2 0 1 + 3) =
      imgWitC6.data (pixIdx 3 (1 + 0) (0 + 1) + 3) := by
  have halpha : ∀ x y, x < imgWitC6.width → y < imgWitC6.height →
      imgWitC6.data (pixIdx imgWitC6.width x y + 3) =
        if 1 ≤ x ∧ x ≤ 2 ∧ 0 ≤ y ∧ y ≤ 1 then 255 else 0 := by
    intro x y hx hy
    have hx3 : x < 3 := hx
    have hy2 : y < 2 := hy
    interval_cases x <;> interval_cases y <;> decide
  have h := (contentCrop imgWitC6 1).2.2.2.2 1 0 2 1 (by decide) (by decide) (by decide)
    (by decide) (by decide) (by decide) halpha
  exact ⟨h.1, h.2 0 1 3 (by decide) (by decide) (by decide)⟩

/-! ### Single-flight deduplication (C1) -/

/-- Count of a control state among the requests. -/
def countPC (a : RPC) : List RPC → ℕ
  | [] => 0
  | b :: l => (if b = a then 1 else 0) + countPC a l

theorem countPC_eq_zero {a : RPC} : ∀ {l : List RPC}, countPC a l = 0 ↔ a ∉ l := by
  intro l
  induction l with
  | nil => simp [countPC]
  | cons b l ih =>
    show (if b = a then 1 else 0) + countPC a l = 0 ↔ a ∉ b :: l
    by_cases hb : b = a
    · subst hb
      simp
    · rw [if_neg hb, Nat.zero_add, ih]
      constructor
      · intro h hm
        rcases List.mem_cons.1 hm with rfl | hm2
        · exact hb rfl
        · exact h hm2
      · intro h hm
        exact h (List.mem_cons.2 (Or.inr hm))

theorem countPC_pos_of_mem {a : RPC} {l : List RPC} (h : a ∈ l) : countPC a l ≠ 0 :=
  fun h0 => countPC_eq_zero.1 h0 h

theorem get?_mem {l : List RPC} {i : ℕ} {a : RPC} (h : l.get? i = some a) : a ∈ l :=
  List.get?_mem h

theorem countPC_set : ∀ (l : List RPC) (i : ℕ) (old new a : RPC), l.get? i = some old →
    countPC a (l.set i new) + (if old = a then 1 else 0) =
      countPC a l + (if new = a then 1 else 0) := by
  intro l
  induction l with
  | nil => intro i old new a h; cases h
  | cons b l ih =>
    intro i old new a h
    cases i with
    | zero =>
      rw [List.get?] at h
      cases h
      show (if new = a then 1 else 0) + countPC a l + (if b = a then 1 else 0) =
        (if b = a then 1 else 0) + countPC a l + (if new = a then 1 else 0)
      omega
    | succ j =>
      rw [List.get?] at h
      show (if b = a then 1 else 0) + countPC a (l.set j new) + (if old = a then 1 else 0) =
        (if b = a then 1 else 0) + countPC a l + (if new = a then 1 else 0)
      have := ih j old new a h
      omega

theorem mem_set_cases {l : List RPC} {i : ℕ} {b pc : RPC} (h : pc ∈ l.set i b) :
    pc ∈ l ∨ pc = b :=
  List.mem_or_eq_of_mem_set h

/-- Allowed control states before any conversion started. -/
def pcB (pc : RPC) : Prop :=
  pc = .start ∨ ∃ p, pc = .ready p

/-- Allowed control states while the conversion runs. -/
def pcC (pc : RPC) : Prop :=
  pcB pc ∨ pc = .runningPC ∨ pc = .awaitingPC

/-- Allowed control states after a successful conversion settled. -/
def pcDok (t : ℕ) (pc : RPC) : Prop :=
  pcB pc ∨ pc = .awaitingPC ∨ pc = .returned ∨ pc = .donePC t

/-- Allowed control states after a failed conversion settled. -/
def pcDerr (t : ℕ) (pc : RPC) : Prop :=
  pcB pc ∨ pc = .awaitingPC ∨ pc = .fw1 ∨ pc = .fw2 ∨ pc = .fw3 ∨ pc = .returned ∨
    pc = .donePC t ∨ pc = .errored

/-- After a failed conversion settles, the failing runner walks through the
synthetic write (`fw1 → fw2`), the atomic replace (`fw2 → fw3`) and the
`finally` deregistration (`fw3 → returned`); the registration and the count of
synthetic writes follow its progress. -/
def fwPhase (s : GState) : Prop :=
  (countPC .fw1 s.procs = 1 ∧ countPC .fw2 s.procs = 0 ∧ countPC .fw3 s.procs = 0 ∧
    s.synthCount = 0 ∧ s.inflight = true) ∨
  (countPC .fw1 s.procs = 0 ∧ countPC .fw2 s.procs = 1 ∧ countPC .fw3 s.procs = 0 ∧
    s.synthCount = 1 ∧ s.inflight = true) ∨
  (countPC .fw1 s.procs = 0 ∧ countPC .fw2 s.procs = 0 ∧ countPC .fw3 s.procs = 1 ∧
    s.synthCount = 1 ∧ s.inflight = true) ∨
  (countPC .fw1 s.procs = 0 ∧ countPC .fw2 s.procs = 0 ∧ countPC .fw3 s.procs = 0 ∧
    s.synthCount = 1 ∧ s.inflight = false)

/-- The inductive invariant of the C1 scenario. -/
def CInv (env : CEnv) (s : GState) : Prop :=
  (s.cache.pipelineAvailable = none ∨ s.cache.pipelineAvailable = some true) ∧
  (s.run = .notStarted →
    s.inflight = false ∧ s.execCount = 0 ∧ s.synthCount = 0 ∧
    s.cache.gribMtimeMs = none ∧ ∀ pc ∈ s.procs, pcB pc) ∧
  (s.run = .runningRS →
    s.inflight = true ∧ s.execCount = 1 ∧ s.synthCount = 0 ∧
    s.cache.gribMtimeMs = none ∧ countPC .runningPC s.procs = 1 ∧
    ∀ pc ∈ s.procs, pcC pc) ∧
  (s.run = .settled →
    s.execCount = 1 ∧ s.cache.updatedAt = env.tDone ∧
    (∀ r, env.outcome = .ok r →
      s.inflight = false ∧ s.synthCount = 0 ∧ ∀ pc ∈ s.procs, pcDok env.tDone pc) ∧
    (∀ m, env.outcome = .error m →
      fwPhase s ∧ ∀ pc ∈ s.procs, pcDerr env.tDone pc))

theorem countPC_set_eq {l : List RPC} {i : ℕ} {old : RPC} (new a : RPC)
    (h : l.get? i = some old) (hold : old ≠ a) (hnew : new ≠ a) :
    countPC a (l.set i new) = countPC a l := by
  have := countPC_set l i old new a h
  rw [if_neg hold, if_neg hnew] at this
  omega

theorem countPC_set_incr {l : List RPC} {i : ℕ} {old : RPC} (new : RPC)
    (h : l.get? i = some old) (hold : old ≠ new) :
    countPC new (l.set i new) = countPC new l + 1 := by
  have := countPC_set l i old new new h
  rw [if_neg hold, if_pos rfl] at this
  omega

theorem countPC_set_decr {l : List RPC} {i : ℕ} {old : RPC} (new : RPC)
    (h : l.get? i = some old) (hnew : new ≠ old) :
    countPC old (l.set i new) + 1 = countPC old l := by
  have := countPC_set l i old new old h
  rw [if_pos rfl, if_neg hnew] at this
  omega

theorem forall_mem_set {P : RPC → Prop} {l : List RPC} {i : ℕ} {b : RPC}
    (hl : ∀ pc ∈ l, P pc) (hb : P b) : ∀ pc ∈ l.set i b, P pc := by
  intro pc h
  rcases mem_set_cases h with hm | rfl
  · exact hl pc hm
  · exact hb

theorem pcB_not_special {pc : RPC} (h : pcB pc) :
    pc ≠ .runningPC ∧ pc ≠ .awaitingPC ∧ pc ≠ .fw1 ∧ pc ≠ .fw2 ∧ pc ≠ .fw3 ∧
      pc ≠ .returned ∧ pc ≠ .errored ∧ ∀ u, pc ≠ .donePC u := by
  rcases h with rfl | ⟨p, rfl⟩ <;> simp

theorem countPC_zero_of_forall {a : RPC} {l : List RPC} (h : ∀ pc ∈ l, pc ≠ a) :
    countPC a l = 0 :=
  countPC_eq_zero.2 fun hm => h a hm rfl

theorem regenWarranted_scenario (c : OCache) (env : CEnv) (i : ℕ) (prev : Option Bool)
    (h : c.gribMtimeMs = none) :
    regenWarranted { c with pipelineAvailable := prev } (envFor env i) = true := by
  simp [regenWarranted, gribTruthy, toolsAvail, envFor, h]

theorem cinv_readPrev {env : CEnv} {s s1 : GState} {i : ℕ}
    (hs : CInv env s) (h : cstep env s (.readPrev i) = some s1) :
    CInv env s1 ∧ s1.run = s.run := by
  obtain ⟨hA, hB, hC, hD⟩ := hs
  simp only [cstep] at h
  cases hpc : s.procs.get? i with
  | none => rw [hpc] at h; cases h
  | some pc =>
    rw [hpc] at h
    cases pc with
    | start =>
      cases h
      refine ⟨⟨hA, ?_, ?_, ?_⟩, rfl⟩
      · intro hrun
        obtain ⟨h1, h2, h3, h4, h5⟩ := hB hrun
        exact ⟨h1, h2, h3, h4, forall_mem_set h5 (Or.inr ⟨_, rfl⟩)⟩
      · intro hrun
        obtain ⟨h1, h2, h3, h4, h5, h6⟩ := hC hrun
        refine ⟨h1, h2, h3, h4, ?_, forall_mem_set h6 (Or.inl (Or.inr ⟨_, rfl⟩))⟩
        show countPC .runningPC (s.procs.set i (.ready s.cache.pipelineAvailable)) = 1
        rw [countPC_set_eq _ .runningPC hpc (by simp) (by simp)]
        exact h5
      · intro hrun
        obtain ⟨h1, h2, h3, h4⟩ := hD hrun
        refine ⟨h1, h2, ?_, ?_⟩
        · intro r hr
          obtain ⟨k1, k2, k3⟩ := h3 r hr
          exact ⟨k1, k2, forall_mem_set k3 (Or.inl (Or.inr ⟨_, rfl⟩))⟩
        · intro m hm
          obtain ⟨k1, k2⟩ := h4 m hm
          refine ⟨?_, forall_mem_set k2 (Or.inl (Or.inr ⟨_, rfl⟩))⟩
          unfold fwPhase at k1 ⊢
          dsimp only
          rw [countPC_set_eq _ .fw1 hpc (by simp) (by simp),
            countPC_set_eq _ .fw2 hpc (by simp) (by simp),
            countPC_set_eq _ .fw3 hpc (by simp) (by simp)]
          exact k1
    | ready p => cases h
    | runningPC => cases h
    | awaitingPC => cases h
    | fw1 => cases h
    | fw2 => cases h
    | fw3 => cases h
    | returned => cases h
    | donePC u => cases h
    | errored => cases h

theorem cinv_decideStep {env : CEnv} {s s1 : GState} {i : ℕ}
    (hs : CInv env s) (hns : s.run ≠ .settled)
    (h : cstep env s (.decideStep i) = some s1) :
    CInv env s1 ∧ s1.run ≠ .settled := by
  obtain ⟨hA, hB, hC, hD⟩ := hs
  simp only [cstep] at h
  cases hpc : s.procs.get? i with
  | none => rw [hpc] at h; cases h
  | some pc =>
    rw [hpc] at h
    cases pc with
    | ready prev =>
      dsimp only at h
      cases hrun : s.run with
      | settled => exact absurd hrun hns
      | notStarted =>
        obtain ⟨h1, h2, h3, h4, h5⟩ := hB hrun
        rw [regenWarranted_scenario s.cache env i prev h4, if_pos rfl, h1,
          if_neg (by simp)] at h
        cases h
        have hcnt : countPC .runningPC s.procs = 0 :=
          countPC_zero_of_forall fun pc hm => (pcB_not_special (h5 pc hm)).1
        refine ⟨⟨Or.inr rfl, ?_, ?_, ?_⟩, by simp⟩
        · intro hr
          simp at hr
        · intro _
          refine ⟨rfl, by rw [h2], h3, h4, ?_, ?_⟩
          · show countPC .runningPC (s.procs.set i .runningPC) = 1
            rw [countPC_set_incr .runningPC hpc (by simp), hcnt]
          · exact forall_mem_set (fun pc hm => Or.inl (h5 pc hm)) (Or.inr (Or.inl rfl))
        · intro hr
          simp at hr
      | runningRS =>
        obtain ⟨h1, h2, h3, h4, h5, h6⟩ := hC hrun
        rw [regenWarranted_scenario s.cache env i prev h4, if_pos rfl, h1, if_pos rfl] at h
        cases h
        refine ⟨⟨Or.inr rfl, ?_, ?_, ?_⟩, hns⟩
        · intro hr
          rw [hrun] at hr
          simp at hr
        · intro _
          refine ⟨rfl, h2, h3, h4, ?_, ?_⟩
          · show countPC .runningPC (s.procs.set i .awaitingPC) = 1
            rw [countPC_set_eq .awaitingPC .runningPC hpc (by simp) (by simp)]
            exact h5
          · exact forall_mem_set h6 (Or.inr (Or.inr rfl))
        · intro hr
          rw [hrun] at hr
          simp at hr
    | start => cases h
    | runningPC => cases h
    | awaitingPC => cases h
    | fw1 => cases h
    | fw2 => cases h
    | fw3 => cases h
    | returned => cases h
    | donePC u => cases h
    | errored => cases h

theorem cinv_complete {env : CEnv} {s s1 : GState} {i : ℕ}
    (hs : CInv env s) (h : cstep env s (.complete i) = some s1) :
    CInv env s1 ∧ s1.run = .settled := by
  obtain ⟨hA, hB, hC, hD⟩ := hs
  simp only [cstep] at h
  cases hpc : s.procs.get? i with
  | none => rw [hpc] at h; cases h
  | some pc =>
    rw [hpc] at h
    cases pc with
    | runningPC =>
      cases hout : env.outcome with
      | error m => rw [hout] at h; cases h
      | ok r =>
        rw [hout] at h
        cases h
        have hmem := get?_mem hpc
        cases hrun : s.run with
        | notStarted =>
          obtain ⟨_, _, _, _, h5⟩ := hB hrun
          exact absurd rfl (pcB_not_special (h5 _ hmem)).1
        | settled =>
          obtain ⟨_, _, h3, _⟩ := hD hrun
          have := (h3 r hout).2.2 _ hmem
          simp [pcDok, pcB] at this
        | runningRS =>
          obtain ⟨h1, h2, h3, h4, h5, h6⟩ := hC hrun
          have hcnt : countPC .runningPC (s.procs.set i .returned) = 0 := by
            have := countPC_set_decr .returned hpc (by simp)
            omega
          refine ⟨⟨Or.inr rfl, ?_, ?_, ?_⟩, rfl⟩
          · intro hr
            simp at hr
          · intro hr
            simp at hr
          · intro _
            refine ⟨h2, rfl, ?_, ?_⟩
            · intro r2 _
              refine ⟨rfl, h3, ?_⟩
              intro pc hm
              by_cases hrp : pc = .runningPC
              · subst hrp
                exact absurd (countPC_eq_zero.1 hcnt) (by simp [hm])
              · rcases mem_set_cases hm with hm2 | rfl
                · rcases h6 pc hm2 with hb | rfl | rfl
                  · exact Or.inl hb
                  · exact absurd rfl hrp
                  · exact Or.inr (Or.inl rfl)
                · exact Or.inr (Or.inr (Or.inl rfl))
            · intro m2 hm2
              rw [hout] at hm2
              cases hm2
    | start => cases h
    | ready p => cases h
    | awaitingPC => cases h
    | fw1 => cases h
    | fw2 => cases h
    | fw3 => cases h
    | returned => cases h
    | donePC u => cases h
    | errored => cases h

theorem cinv_completeF {env : CEnv} {s s1 : GState} {i : ℕ}
    (hs : CInv env s) (h : cstep env s (.completeF i) = some s1) :
    CInv env s1 ∧ s1.run = .settled := by
  obtain ⟨hA, hB, hC, hD⟩ := hs
  simp only [cstep] at h
  cases hpc : s.procs.get? i with
  | none => rw [hpc] at h; cases h
  | some pc =>
    rw [hpc] at h
    cases pc with
    | runningPC =>
      cases hout : env.outcome with
      | ok r => rw [hout] at h; cases h
      | error m =>
        rw [hout] at h
        cases h
        have hmem := get?_mem hpc
        cases hrun : s.run with
        | notStarted => exact absurd rfl (pcB_not_special ((hB hrun).2.2.2.2 _ hmem)).1
        | settled =>
          have := ((hD hrun).2.2.2 m hout).2 _ hmem
          simp [pcDerr, pcB] at this
        | runningRS =>
          obtain ⟨h1, h2, h3, h4, h5, h6⟩ := hC hrun
          have hnofw1 : countPC .fw1 s.procs = 0 := by
            refine countPC_zero_of_forall fun pc hm => ?_
            rcases h6 pc hm with hb | rfl | rfl
            · exact (pcB_not_special hb).2.2.1
            · simp
            · simp
          have hnofw2 : countPC .fw2 s.procs = 0 := by
            refine countPC_zero_of_forall fun pc hm => ?_
            rcases h6 pc hm with hb | rfl | rfl
            · exact (pcB_not_special hb).2.2.2.1
            · simp
            · simp
          have hnofw3 : countPC .fw3 s.procs = 0 := by
            refine countPC_zero_of_forall fun pc hm => ?_
            rcases h6 pc hm with hb | rfl | rfl
            · exact (pcB_not_special hb).2.2.2.2.1
            · simp
            · simp
          have hcnt0 : countPC .runningPC (s.procs.set i .fw1) = 0 := by
            have := countPC_set_decr .fw1 hpc (by simp)
            omega
          refine ⟨⟨Or.inr rfl, ?_, ?_, ?_⟩, rfl⟩
          · intro hr
            simp at hr
          · intro hr
            simp at hr
          · intro _
            refine ⟨h2, rfl, ?_, ?_⟩
            · intro r2 hr2
              rw [hout] at hr2
              cases hr2
            · intro m2 _
              constructor
              · left
                refine ⟨?_, ?_, ?_, h3, h1⟩
                · show countPC .fw1 (s.procs.set i .fw1) = 1
                  rw [countPC_set_incr .fw1 hpc (by simp), hnofw1]
                · show countPC .fw2 (s.procs.set i .fw1) = 0
                  rw [countPC_set_eq .fw1 .fw2 hpc (by simp) (by simp)]
                  exact hnofw2
                · show countPC .fw3 (s.procs.set i .fw1) = 0
                  rw [countPC_set_eq .fw1 .fw3 hpc (by simp) (by simp)]
                  exact hnofw3
              · intro pc hm
                by_cases hrp : pc = .runningPC
                · subst hrp
                  exact absurd (countPC_eq_zero.1 hcnt0) (by simp [hm])
                · rcases mem_set_cases hm with hm2 | rfl
                  · rcases h6 pc hm2 with hb | rfl | rfl
                    · exact Or.inl hb
                    · exact absurd rfl hrp
                    · exact Or.inr (Or.inl rfl)
                  · exact Or.inr (Or.inr (Or.inl rfl))
    | start => cases h
    | ready p => cases h
    | awaitingPC => cases h
    | fw1 => cases h
    | fw2 => cases h
    | fw3 => cases h
    | returned => cases h
    | donePC u => cases h
    | errored => cases h

theorem cinv_fwrite {env : CEnv} {s s1 : GState} {i : ℕ}
    (hs : CInv env s) (h : cstep env s (.fwrite i) = some s1) :
    CInv env s1 ∧ s.run = .settled ∧ s1.run = .settled := by
  obtain ⟨hA, hB, hC, hD⟩ := hs
  simp only [cstep] at h
  cases hpc : s.procs.get? i with
  | none => rw [hpc] at h; cases h
  | some pc =>
    rw [hpc] at h
    cases pc with
    | fw1 =>
      cases h
      have hmem := get?_mem hpc
      cases hrun : s.run with
      | notStarted => exact absurd rfl (pcB_not_special ((hB hrun).2.2.2.2 _ hmem)).2.2.1
      | runningRS =>
        have := (hC hrun).2.2.2.2.2 _ hmem
        simp [pcC, pcB] at this
      | settled =>
        obtain ⟨hex, hupd, hok, herr⟩ := hD hrun
        cases hout : env.outcome with
        | ok r =>
          have := (hok r hout).2.2 _ hmem
          simp [pcDok, pcB] at this
        | error m =>
          obtain ⟨k1, k2⟩ := herr m hout
          have hfwmem : countPC .fw1 s.procs ≠ 0 := countPC_pos_of_mem hmem
          rcases k1 with ⟨c1, c2, c3, hsy, hin⟩ | ⟨c1, _⟩ | ⟨c1, _⟩ | ⟨c1, _⟩
          · refine ⟨⟨hA, ?_, ?_, ?_⟩, rfl, rfl⟩
            · intro hr
              simp at hr
            · intro hr
              simp at hr
            · intro _
              refine ⟨hex, hupd, ?_, ?_⟩
              · intro r2 hr2
                rw [hout] at hr2
                cases hr2
              · intro m2 _
                refine ⟨?_, forall_mem_set k2 (Or.inr (Or.inr (Or.inr (Or.inl rfl))))⟩
                right
                left
                refine ⟨?_, ?_, ?_, by dsimp only; omega, hin⟩
                · show countPC .fw1 (s.procs.set i .fw2) = 0
                  have := countPC_set_decr .fw2 hpc (by simp)
                  omega
                · show countPC .fw2 (s.procs.set i .fw2) = 1
                  rw [countPC_set_incr .fw2 hpc (by simp), c2]
                · show countPC .fw3 (s.procs.set i .fw2) = 0
                  rw [countPC_set_eq .fw2 .fw3 hpc (by simp) (by simp)]
                  exact c3
          · exact absurd c1 hfwmem
          · exact absurd c1 hfwmem
          · exact absurd c1 hfwmem
    | start => cases h
    | ready p => cases h
    | runningPC => cases h
    | awaitingPC => cases h
    | fw2 => cases h
    | fw3 => cases h
    | returned => cases h
    | donePC u => cases h
    | errored => cases h

theorem cinv_frename {env : CEnv} {s s1 : GState} {i : ℕ}
    (hs : CInv env s) (h : cstep env s (.frename i) = some s1) :
    CInv env s1 ∧ s.run = .settled ∧ s1.run = .settled := by
  obtain ⟨hA, hB, hC, hD⟩ := hs
  simp only [cstep] at h
  cases hpc : s.procs.get? i with
  | none => rw [hpc] at h; cases h
  | some pc =>
    rw [hpc] at h
    cases pc with
    | fw2 =>
      cases h
      have hmem := get?_mem hpc
      cases hrun : s.run with
      | notStarted => exact absurd rfl (pcB_not_special ((hB hrun).2.2.2.2 _ hmem)).2.2.2.1
      | runningRS =>
        have := (hC hrun).2.2.2.2.2 _ hmem
        simp [pcC, pcB] at this
      | settled =>
        obtain ⟨hex, hupd, hok, herr⟩ := hD hrun
        cases hout : env.outcome with
        | ok r =>
          have := (hok r hout).2.2 _ hmem
          simp [pcDok, pcB] at this
        | error m =>
          obtain ⟨k1, k2⟩ := herr m hout
          have hfwmem : countPC .fw2 s.procs ≠ 0 := countPC_pos_of_mem hmem
          rcases k1 with ⟨_, c2, _⟩ | ⟨c1, c2, c3, hsy, hin⟩ | ⟨_, c2, _⟩ | ⟨_, c2, _⟩
          · exact absurd c2 hfwmem
          · refine ⟨⟨hA, ?_, ?_, ?_⟩, rfl, rfl⟩
            · intro hr
              simp at hr
            · intro hr
              simp at hr
            · intro _
              refine ⟨hex, hupd, ?_, ?_⟩
              · intro r2 hr2
                rw [hout] at hr2
                cases hr2
              · intro m2 _
                refine ⟨?_, forall_mem_set k2 (Or.inr (Or.inr (Or.inr (Or.inr (Or.inl rfl)))))⟩
                right
                right
                left
                refine ⟨?_, ?_, ?_, hsy, hin⟩
                · show countPC .fw1 (s.procs.set i .fw3) = 0
                  rw [countPC_set_eq .fw3 .fw1 hpc (by simp) (by simp)]
                  exact c1
                · show countPC .fw2 (s.procs.set i .fw3) = 0
                  have := countPC_set_decr .fw3 hpc (by simp)
                  omega
                · show countPC .fw3 (s.procs.set i .fw3) = 1
                  rw [countPC_set_incr .fw3 hpc (by simp), c3]
          · exact absurd c2 hfwmem
          · exact absurd c2 hfwmem
    | start => cases h
    | ready p => cases h
    | runningPC => cases h
    | awaitingPC => cases h
    | fw1 => cases h
    | fw3 => cases h
    | returned => cases h
    | donePC u => cases h
    | errored => cases h

theorem cinv_ffinally {env : CEnv} {s s1 : GState} {i : ℕ}
    (hs : CInv env s) (h : cstep env s (.ffinally i) = some s1) :
    CInv env s1 ∧ s.run = .settled ∧ s1.run = .settled := by
  obtain ⟨hA, hB, hC, hD⟩ := hs
  simp only [cstep] at h
  cases hpc : s.procs.get? i with
  | none => rw [hpc] at h; cases h
  | some pc =>
    rw [hpc] at h
    cases pc with
    | fw3 =>
      cases h
      have hmem := get?_mem hpc
      cases hrun : s.run with
      | notStarted => exact absurd rfl (pcB_not_special ((hB hrun).2.2.2.2 _ hmem)).2.2.2.2.1
      | runningRS =>
        have := (hC hrun).2.2.2.2.2 _ hmem
        simp [pcC, pcB] at this
      | settled =>
        obtain ⟨hex, hupd, hok, herr⟩ := hD hrun
        cases hout : env.outcome with
        | ok r =>
          have := (hok r hout).2.2 _ hmem
          simp [pcDok, pcB] at this
        | error m =>
          obtain ⟨k1, k2⟩ := herr m hout
          have hfwmem : countPC .fw3 s.procs ≠ 0 := countPC_pos_of_mem hmem
          rcases k1 with ⟨_, _, c3, _⟩ | ⟨_, _, c3, _⟩ | ⟨c1, c2, c3, hsy, hin⟩ | ⟨_, _, c3, _⟩
          · exact absurd c3 hfwmem
          · exact absurd c3 hfwmem
          · refine ⟨⟨hA, ?_, ?_, ?_⟩, rfl, rfl⟩
            · intro hr
              simp at hr
            · intro hr
              simp at hr
            · intro _
              refine ⟨hex, hupd, ?_, ?_⟩
              · intro r2 hr2
                rw [hout] at hr2
                cases hr2
              · intro m2 _
                refine ⟨?_,
                  forall_mem_set k2 (Or.inr (Or.inr (Or.inr (Or.inr (Or.inr (Or.inl rfl))))))⟩
                right
                right
                right
                refine ⟨?_, ?_, ?_, hsy, rfl⟩
                · show countPC .fw1 (s.procs.set i .returned) = 0
                  rw [countPC_set_eq .returned .fw1 hpc (by simp) (by simp)]
                  exact c1
                · show countPC .fw2 (s.procs.set i .returned) = 0
                  rw [countPC_set_eq .returned .fw2 hpc (by simp) (by simp)]
                  exact c2
                · show countPC .fw3 (s.procs.set i .returned) = 0
                  have := countPC_set_decr .returned hpc (by simp)
                  omega
          · exact absurd c3 hfwmem
    | start => cases h
    | ready p => cases h
    | runningPC => cases h
    | awaitingPC => cases h
    | fw1 => cases h
    | fw2 => cases h
    | returned => cases h
    | donePC u => cases h
    | errored => cases h

theorem cinv_resume {env : CEnv} {s s1 : GState} {i : ℕ}
    (hs : CInv env s) (h : cstep env s (.resume i) = some s1) :
    CInv env s1 ∧ s.run = .settled ∧ s1.run = .settled := by
  obtain ⟨hA, hB, hC, hD⟩ := hs
  simp only [cstep] at h
  cases hpc : s.procs.get? i with
  | none => rw [hpc] at h; cases h
  | some pc =>
    rw [hpc] at h
    cases pc with
    | awaitingPC =>
      cases hrun : s.run with
      | notStarted => rw [hrun] at h; cases h
      | runningRS => rw [hrun] at h; cases h
      | settled =>
        rw [hrun] at h
        obtain ⟨hex, hupd, hok, herr⟩ := hD hrun
        cases hout : env.outcome with
        | ok r =>
          rw [hout] at h
          cases h
          refine ⟨⟨hA, ?_, ?_, ?_⟩, rfl, rfl⟩
          · intro hr
            simp at hr
          · intro hr
            simp at hr
          · intro _
            obtain ⟨k1, k2, k3⟩ := hok r hout
            refine ⟨hex, hupd, ?_, ?_⟩
            · intro r2 _
              exact ⟨k1, k2, forall_mem_set k3 (Or.inr (Or.inr (Or.inl rfl)))⟩
            · intro m2 hm2
              rw [hout] at hm2
              cases hm2
        | error m =>
          rw [hout] at h
          cases h
          obtain ⟨k1, k2⟩ := herr m hout
          refine ⟨⟨hA, ?_, ?_, ?_⟩, rfl, rfl⟩
          · intro hr
            simp at hr
          · intro hr
            simp at hr
          · intro _
            refine ⟨hex, hupd, ?_, ?_⟩
            · intro r2 hr2
              rw [hout] at hr2
              cases hr2
            · intro m2 _
              refine ⟨?_, forall_mem_set k2
                (Or.inr (Or.inr (Or.inr (Or.inr (Or.inr (Or.inr (Or.inr rfl)))))))⟩
              unfold fwPhase at k1 ⊢
              dsimp only
              rw [countPC_set_eq .errored .fw1 hpc (by simp) (by simp),
                countPC_set_eq .errored .fw2 hpc (by simp) (by simp),
                countPC_set_eq .errored .fw3 hpc (by simp) (by simp)]
              exact k1
    | start => cases h
    | ready p => cases h
    | runningPC => cases h
    | fw1 => cases h
    | fw2 => cases h
    | fw3 => cases h
    | returned => cases h
    | donePC u => cases h
    | errored => cases h

theorem cinv_observe {env : CEnv} {s s1 : GState} {i : ℕ}
    (hs : CInv env s) (h : cstep env s (.observe i) = some s1) :
    CInv env s1 ∧ s.run = .settled ∧ s1.run = .settled := by
  obtain ⟨hA, hB, hC, hD⟩ := hs
  simp only [cstep] at h
  cases hpc : s.procs.get? i with
  | none => rw [hpc] at h; cases h
  | some pc =>
    rw [hpc] at h
    cases pc with
    | returned =>
      cases h
      have hmem := get?_mem hpc
      cases hrun : s.run with
      | notStarted => exact absurd rfl (pcB_not_special ((hB hrun).2.2.2.2 _ hmem)).2.2.2.2.2.1
      | runningRS =>
        have := (hC hrun).2.2.2.2.2 _ hmem
        simp [pcC, pcB] at this
      | settled =>
        obtain ⟨hex, hupd, hok, herr⟩ := hD hrun
        refine ⟨⟨hA, ?_, ?_, ?_⟩, rfl, rfl⟩
        · intro hr
          simp at hr
        · intro hr
          simp at hr
        · intro _
          refine ⟨hex, hupd, ?_, ?_⟩
          · intro r2 hr2
            obtain ⟨k1, k2, k3⟩ := hok r2 hr2
            refine ⟨k1, k2, forall_mem_set k3 ?_⟩
            rw [hupd]
            exact Or.inr (Or.inr (Or.inr rfl))
          · intro m2 hm2
            obtain ⟨k1, k2⟩ := herr m2 hm2
            refine ⟨?_, forall_mem_set k2 ?_⟩
            · unfold fwPhase at k1 ⊢
              dsimp only
              rw [countPC_set_eq (.donePC s.cache.updatedAt) .fw1 hpc (by simp) (by simp),
                countPC_set_eq (.donePC s.cache.updatedAt) .fw2 hpc (by simp) (by simp),
                countPC_set_eq (.donePC s.cache.updatedAt) .fw3 hpc (by simp) (by simp)]
              exact k1
            · rw [hupd]
              exact Or.inr (Or.inr (Or.inr (Or.inr (Or.inr (Or.inr (Or.inl rfl))))))
    | start => cases h
    | ready p => cases h
    | runningPC => cases h
    | awaitingPC => cases h
    | fw1 => cases h
    | fw2 => cases h
    | fw3 => cases h
    | donePC u => cases h
    | errored => cases h

theorem cstep_length {env : CEnv} {s s1 : GState} {l : CLabel}
    (h : cstep env s l = some s1) : s1.procs.length = s.procs.length := by
  cases l <;> simp only [cstep] at h <;>
    (repeat' split at h) <;> (try cases h) <;> simp [List.length_set]

theorem runTrace_length (env : CEnv) :
    ∀ (tr : List CLabel) (s s' : GState),
      runTrace env s tr = some s' → s'.procs.length = s.procs.length := by
  intro tr
  induction tr with
  | nil =>
    intro s s' h
    simp only [runTrace] at h
    cases h
    rfl
  | cons l tr ih =>
    intro s s' h
    simp only [runTrace] at h
    cases hstep : cstep env s l with
    | none => rw [hstep] at h; cases h
    | some s1 =>
      rw [hstep] at h
      rw [ih s1 s' h, cstep_length hstep]

theorem cinv_init (env : CEnv) (n : ℕ) : CInv env (initState n) := by
  refine ⟨Or.inl rfl, ?_, ?_, ?_⟩
  · intro _
    refine ⟨rfl, rfl, rfl, rfl, ?_⟩
    intro pc hm
    exact Or.inl (List.eq_of_mem_replicate hm)
  · intro hr
    simp [initState] at hr
  · intro hr
    simp [initState] at hr

theorem runTrace_inv (env : CEnv) :
    ∀ (tr : List CLabel) (s s' : GState),
      CInv env s → runTrace env s tr = some s' →
      scenOK (decide (s.run = .settled)) tr = true →
      CInv env s' := by
  intro tr
  induction tr with
  | nil =>
    intro s s' hs h _
    simp only [runTrace] at h
    cases h
    exact hs
  | cons l tr ih =>
    intro s s' hs h hok
    simp only [runTrace] at h
    cases hstep : cstep env s l with
    | none => rw [hstep] at h; cases h
    | some s1 =>
      rw [hstep] at h
      cases l with
      | readPrev i =>
        obtain ⟨h1, h2⟩ := cinv_readPrev hs hstep
        refine ih s1 s' h1 h ?_
        simp only [scenOK] at hok
        rw [h2]
        exact hok
      | decideStep i =>
        simp only [scenOK] at hok
        by_cases hc : s.run = .settled
        · simp [hc] at hok
        · simp only [decide_eq_false hc, if_false] at hok
          obtain ⟨h1, h2⟩ := cinv_decideStep hs hc hstep
          refine ih s1 s' h1 h ?_
          rw [decide_eq_false h2]
          exact hok
      | complete i =>
        obtain ⟨h1, h2⟩ := cinv_complete hs hstep
        refine ih s1 s' h1 h ?_
        simp only [scenOK] at hok
        simpa [h2] using hok
      | completeF i =>
        obtain ⟨h1, h2⟩ := cinv_completeF hs hstep
        refine ih s1 s' h1 h ?_
        simp only [scenOK] at hok
        simpa [h2] using hok
      | fwrite i =>
        obtain ⟨h1, h2, h3⟩ := cinv_fwrite hs hstep
        refine ih s1 s' h1 h ?_
        simp only [scenOK] at hok
        rw [h3]
        rw [h2] at hok
        exact hok
      | frename i =>
        obtain ⟨h1, h2, h3⟩ := cinv_frename hs hstep
        refine ih s1 s' h1 h ?_
        simp only [scenOK] at hok
        rw [h3]
        rw [h2] at hok
        exact hok
      | ffinally i =>
        obtain ⟨h1, h2, h3⟩ := cinv_ffinally hs hstep
        refine ih s1 s' h1 h ?_
        simp only [scenOK] at hok
        rw [h3]
        rw [h2] at hok
        exact hok
      | resume i =>
        obtain ⟨h1, h2, h3⟩ := cinv_resume hs hstep
        refine ih s1 s' h1 h ?_
        simp only [scenOK] at hok
        rw [h3]
        rw [h2] at hok
        exact hok
      | observe i =>
        obtain ⟨h1, h2, h3⟩ := cinv_observe hs hstep
        refine ih s1 s' h1 h ?_
        simp only [scenOK] at hok
        rw [h3]
        rw [h2] at hok
        exact hok

theorem mem_of_countPC_ne_zero {a : RPC} {l : List RPC} (h : countPC a l ≠ 0) : a ∈ l := by
  by_contra hm
  exact h (countPC_eq_zero.2 hm)

/-- C1 (amended): in the concurrent-requests scenario (same key, regeneration
warranted, no cached artifact, every regeneration decision made before the one
conversion settles), every completed schedule starts exactly one pipeline
execution; the in-flight registration is removed by the time all requests
finish, whether the conversion succeeds or fails.  On success no synthetic
fallback write occurs and every caller — the runner and all awaiting callers —
observes the same resulting `updatedAt`.  On failure exactly one synthetic
fallback write occurs, the runner observes the resulting `updatedAt`, and each
awaiting caller observes that same execution's failure: its request errors
instead of reporting `updatedAt`. -/
theorem concurrencyDedup (env : CEnv) (n : ℕ) (tr : List CLabel) (s' : GState)
    (h : runTrace env (initState n) tr = some s')
    (hok : scenOK false tr = true)
    (hfin : ∀ pc ∈ s'.procs, RPC.finished pc)
    (hn : 0 < n) :
    s'.execCount = 1 ∧ s'.inflight = false ∧ s'.run = .settled ∧
    (∀ r, env.outcome = .ok r →
      s'.synthCount = 0 ∧ ∀ pc ∈ s'.procs, pc = .donePC env.tDone) ∧
    (∀ m, env.outcome = .error m →
      s'.synthCount = 1 ∧ ∀ pc ∈ s'.procs, pc = .donePC env.tDone ∨ pc = .errored) := by
  have hflag : scenOK (decide ((initState n).run = RunState.settled)) tr = true := by
    rw [show (decide ((initState n).run = RunState.settled)) = false from rfl]
    exact hok
  have hinv := runTrace_inv env tr (initState n) s' (cinv_init env n) h hflag
  obtain ⟨hA, hB, hC, hD⟩ := hinv
  have hlen : s'.procs.length = n := by
    have := runTrace_length env tr (initState n) s' h
    simpa [initState] using this
  have hne : 0 < s'.procs.length := by
    rw [hlen]
    exact hn
  obtain ⟨pc0, hpc0⟩ := List.exists_mem_of_length_pos hne
  cases hrun : s'.run with
  | notStarted =>
    have hb := (hB hrun).2.2.2.2 pc0 hpc0
    have hf := hfin pc0 hpc0
    rcases hb with h1 | ⟨p, h1⟩ <;> subst h1 <;> exact (hf : False).elim
  | runningRS =>
    obtain ⟨_, _, _, _, hcnt, _⟩ := hC hrun
    have hmem : RPC.runningPC ∈ s'.procs := mem_of_countPC_ne_zero (by omega)
    exact ((hfin _ hmem : RPC.finished .runningPC) : False).elim
  | settled =>
    obtain ⟨hex, hupd, hokk, herr⟩ := hD hrun
    cases houtc : env.outcome with
    | ok r =>
      obtain ⟨hin, hsy, hall⟩ := hokk r houtc
      refine ⟨hex, hin, rfl, ?_, ?_⟩
      · intro r2 _
        refine ⟨hsy, ?_⟩
        intro pc hm
        have hd := hall pc hm
        have hf := hfin pc hm
        rcases hd with hb | h1 | h1 | h1
        · rcases hb with h1 | ⟨p, h1⟩ <;> subst h1 <;> exact (hf : False).elim
        · subst h1
          exact (hf : False).elim
        · subst h1
          exact (hf : False).elim
        · exact h1
      · intro m2 hm2
        cases hm2
    | error m =>
      obtain ⟨hfw, hall⟩ := herr m houtc
      rcases hfw with ⟨c1, _⟩ | ⟨_, c2, _⟩ | ⟨_, _, c3, _⟩ | ⟨c1, c2, c3, hsy, hin⟩
      · exact ((hfin _ (mem_of_countPC_ne_zero (a := .fw1) (by omega)) :
          RPC.finished .fw1) : False).elim
      · exact ((hfin _ (mem_of_countPC_ne_zero (a := .fw2) (by omega)) :
          RPC.finished .fw2) : False).elim
      · exact ((hfin _ (mem_of_countPC_ne_zero (a := .fw3) (by omega)) :
          RPC.finished .fw3) : False).elim
      · refine ⟨hex, hin, rfl, ?_, ?_⟩
        · intro r2 hr2
          cases hr2
        · intro m2 _
          refine ⟨hsy, ?_⟩
          intro pc hm
          have hd := hall pc hm
          have hf := hfin pc hm
          rcases hd with hb | h1 | h1 | h1 | h1 | h1 | h1 | h1
          · rcases hb with h1 | ⟨p, h1⟩ <;> subst h1 <;> exact (hf : False).elim
          · subst h1
            exact (hf : False).elim
          · subst h1
            exact (hf : False).elim
          · subst h1
            exact (hf : False).elim
          · subst h1
            exact (hf : False).elim
          · subst h1
            exact (hf : False).elim
          · exact Or.inl h1
          · exact Or.inr h1

/-- The successful-conversion scenario environment for the C1 witness. -/
noncomputable def envW : CEnv :=
  ⟨5, fun _ => 0, 777, .ok ⟨FRANCE_BOUNDS, ":RPRATE:"⟩, "RPRATE"⟩

/-- A complete two-request schedule for the success scenario. -/
def trW : List CLabel :=
  [.readPrev 0, .decideStep 0, .readPrev 1, .decideStep 1, .complete 0,
   .resume 1, .observe 0, .observe 1]

theorem concurrencyDedup_witness :
    (runTrace envW (initState 2) trW).map
        (fun s => (s.execCount, s.inflight, s.synthCount, s.procs)) =
      some (1, false, 0, [.donePC 777, .donePC 777]) := by
  cases hrt : runTrace envW (initState 2) trW with
  | none =>
    have hne : (runTrace envW (initState 2) trW).isSome = true := by decide
    rw [hrt] at hne
    cases hne
  | some s1 =>
    have hprocs : s1.procs = [.donePC 777, .donePC 777] := by
      have hp : (runTrace envW (initState 2) trW).map (fun s => s.procs) =
          some [.donePC 777, .donePC 777] := by decide
      rw [hrt] at hp
      exact Option.some.inj hp
    have hmain := concurrencyDedup envW 2 trW s1 hrt (by decide)
      (by
        intro pc hm
        rw [hprocs] at hm
        simp only [List.mem_cons, List.not_mem_nil, or_false] at hm
        rcases hm with rfl | rfl
        · trivial
        · trivial)
      (by decide)
    obtain ⟨hex, hin, _, hok4, _⟩ := hmain
    obtain ⟨hsy, _⟩ := hok4 ⟨FRANCE_BOUNDS, ":RPRATE:"⟩ rfl
    simp [hex, hin, hsy, hprocs]

/-- The failing-conversion scenario environment for the C1 counterexample. -/
noncomputable def envX : CEnv :=
  ⟨5, fun _ => 0, 777, .error "boom", "RPRATE"⟩

/-- A complete two-request schedule for the failure scenario. -/
def trX : List CLabel :=
  [.readPrev 0, .decideStep 0, .readPrev 1, .decideStep 1, .completeF 0,
   .fwrite 0, .frename 0, .ffinally 0, .resume 1, .observe 0]

/-- C1 counterexample to the original claim's final observation clause: a
failed conversion under the scenario's conditions. The schedule satisfies the
scenario (all regeneration decisions before the conversion settles), exactly
one pipeline execution starts and exactly one synthetic fallback write occurs
(dedup holds), the registration is removed, the runner finishes with
`updatedAt = 777` — but the awaiting second caller finishes `errored`: it
observes the propagated conversion error, not "the same resulting updatedAt".
-/
theorem concurrencyDedup_cex :
    scenOK false trX = true ∧
    (runTrace envX (initState 2) trX).map
        (fun s => (s.execCount, s.synthCount, s.inflight, s.procs)) =
      some (1, 1, false, [.donePC 777, .errored]) := by
  constructor
  · decide
  · decide

end Precip
